import Mathlib

/-!
# mlbinstall: a shallow embedding of `mlbinstall.c`

Bytes, 16/32/64-bit words and `size_t` values are natural numbers; a store
into a byte reduces modulo 256, `uint16_t` modulo 2^16, `uint32_t` modulo
2^32 and `size_t` modulo 2^64.  The host is little-endian (the installer
patches an x86 boot sector and compares the kernel signature as a host
word), so `memcpy` of a word stores its low byte first.

Memory regions (the mapped kernel header, the `mbr` array, the command
line, the target file) are lists of bytes.  A read outside a list yields 0
and a store outside a list is dropped; the theorems carry the bounds under
which the C program stays inside its arrays.  A C string is the list of
bytes found at its pointer: its characters are the bytes before the first
zero byte, and the end of the list stands for the terminating zero.

The calls that end the process (`errx`) are the `Except.error` results,
the `warnx` diagnostics are collected in a list.
-/

namespace Mlbinstall

/-! ## Process outcomes -/

/-- The `errx (1, ...)` exits of the validation and composition stages. -/
inductive Failure where
  | missingHeader
  | kernelTooOld (version : Nat)
  | needsLoadHigh
  | cmdlineTooLong (maxlen : Nat)
  | unbootable
  deriving DecidableEq, Repr

/-- The format string of each `errx` call, as written in the source. -/
def Failure.format : Failure → String
  | .missingHeader => "%s is missing a Linux kernel header"
  | .kernelTooOld _ =>
      "Kernel too old, boot protocol version >= 0x204/kernel version >= 2.6.14 required, but %s is 0x%x"
  | .needsLoadHigh => "Kernel needs to be loaded high"
  | .cmdlineTooLong _ => "Command line too long, max length: %lu"
  | .unbootable => "%s is unbootable due to condition(s) above"

/-- The `warnx` diagnostics of `lba`, one per condition it tests. -/
inductive Warning where
  | fragmented
  | unknown
  | delalloc
  | encoded
  | encrypted
  | notAligned
  | unwritten
  | beyond2TB
  deriving DecidableEq, Repr

/-- The format string of each `warnx` call, as written in the source. -/
def Warning.format : Warning → String
  | .fragmented => "%s is fragmented"
  | .unknown => "%s: Data location unknown"
  | .delalloc => "%s: Location still pending"
  | .encoded => "%s: Data can not be read while fs is unmounted"
  | .encrypted => "%s: Data is encrypted by fs"
  | .notAligned => "%s: Extent offsets may not be block aligned"
  | .unwritten => "%s: Space allocated, but no data (i.e. zero)"
  | .beyond2TB => "%s is further than 2 TB into the disk"

deriving instance DecidableEq for Except

/-! ## Bytes and words -/

/-- Byte `i` of a memory region. -/
def rd (m : List Nat) (i : Nat) : Nat := m.getD i 0

/-- The object representation of a `uint16_t` on the little-endian host. -/
def le16 (v : Nat) : List Nat := [v % 256, v / 256 % 256]

/-- The object representation of a `uint32_t` on the little-endian host. -/
def le32 (v : Nat) : List Nat :=
  [v % 256, v / 256 % 256, v / 65536 % 256, v / 16777216 % 256]

/-- Host load `*(uint16_t *)(m + off)`. -/
def load16 (m : List Nat) (off : Nat) : Nat :=
  rd m off + 256 * rd m (off + 1)

/-- Host load `*(uint32_t *)(m + off)`. -/
def load32 (m : List Nat) (off : Nat) : Nat :=
  rd m off + 256 * rd m (off + 1) + 65536 * rd m (off + 2) + 16777216 * rd m (off + 3)

/-- On a little-endian host `be16toh` swaps the two bytes of its argument. -/
def be16toh (x : Nat) : Nat := (x % 256) * 256 + x / 256 % 256

/-- Every element of the region is a byte. -/
def IsBytes (m : List Nat) : Prop := ∀ b ∈ m, b < 256

instance (m : List Nat) : Decidable (IsBytes m) := by
  unfold IsBytes; infer_instance

/-! ## Kernel header validation -/

/-- The three checks of `check_version` on the mapped start `m` of the kernel
image, in the order of the source. -/
def check_version (m : List Nat) : Except Failure Unit :=
  let header := load32 m 0x202
  let version := be16toh (load16 m 0x206)
  let loadflags := rd m 0x211
  if header ≠ 0x53726448 then
    .error .missingHeader
  else if version < 0x204 then
    .error (.kernelTooOld version)
  else if loadflags &&& 0x01 = 0 then
    .error .needsLoadHigh
  else
    .ok ()

/-! ## Command-line length -/

/-- The libc `strnlen`: the number of bytes before the first zero byte, at
most `maxlen`. -/
def strnlen : List Nat → Nat → Nat
  | _, 0 => 0
  | [], _ + 1 => 0
  | c :: cs, n + 1 => if c = 0 then 0 else strnlen cs n + 1

/-- The libc `strlen`: the number of bytes before the first zero byte. -/
def strlen (s : List Nat) : Nat := (s.takeWhile (fun c => c ≠ 0)).length

/-- The function `cmdlen`: `maxlen` and `len` are `size_t`, the result is
`uint16_t`. -/
def cmdlen (cmdline : List Nat) (mlblen mbrlen : Nat) : Except Failure Nat :=
  let maxlen := (mbrlen + 2 ^ 64 - mlblen + 1) % 2 ^ 64
  let len := strnlen cmdline maxlen
  if len = maxlen then
    .error (.cmdlineTooLong maxlen)
  else
    .ok ((len + 1) % 2 ^ 16)

/-! ## Extent resolution -/

/-- Flag values of `<linux/fiemap.h>`. -/
def FIEMAP_EXTENT_LAST : Nat := 0x00000001
/-- Flag values of `<linux/fiemap.h>`. -/
def FIEMAP_EXTENT_UNKNOWN : Nat := 0x00000002
/-- Flag values of `<linux/fiemap.h>`. -/
def FIEMAP_EXTENT_DELALLOC : Nat := 0x00000004
/-- Flag values of `<linux/fiemap.h>`. -/
def FIEMAP_EXTENT_ENCODED : Nat := 0x00000008
/-- Flag values of `<linux/fiemap.h>`. -/
def FIEMAP_EXTENT_DATA_ENCRYPTED : Nat := 0x00000080
/-- Flag values of `<linux/fiemap.h>`. -/
def FIEMAP_EXTENT_NOT_ALIGNED : Nat := 0x00000100
/-- Flag values of `<linux/fiemap.h>`. -/
def FIEMAP_EXTENT_UNWRITTEN : Nat := 0x00000800

/-- One `if (cond) { warnx (...); error = true; }` block of `lba`: the state is
the diagnostics printed so far and the `error` variable. -/
def warnIf (cond : Bool) (w : Warning) (st : List Warning × Bool) : List Warning × Bool :=
  if cond then (st.1 ++ [w], true) else st

/-- The eight tests of `lba` on the extent `fm_extents[0]` that the ioctl
returned, starting from `error = false`. -/
def lbaChecks (fe_flags fe_physical : Nat) : List Warning × Bool :=
  let st : List Warning × Bool := ([], false)
  let st := warnIf (fe_flags &&& FIEMAP_EXTENT_LAST = 0) .fragmented st
  let st := warnIf (fe_flags &&& FIEMAP_EXTENT_UNKNOWN ≠ 0) .unknown st
  let st := warnIf (fe_flags &&& FIEMAP_EXTENT_DELALLOC ≠ 0) .delalloc st
  let st := warnIf (fe_flags &&& FIEMAP_EXTENT_ENCODED ≠ 0) .encoded st
  let st := warnIf (fe_flags &&& FIEMAP_EXTENT_DATA_ENCRYPTED ≠ 0) .encrypted st
  let st := warnIf (fe_flags &&& FIEMAP_EXTENT_NOT_ALIGNED ≠ 0) .notAligned st
  let st := warnIf (fe_flags &&& FIEMAP_EXTENT_UNWRITTEN ≠ 0) .unwritten st
  let st := warnIf (fe_physical / 512 > 0xFFFFFFFF) .beyond2TB st
  st

/-- The function `lba` after the ioctl: the diagnostics it prints and its
outcome, the `uint32_t` sector number or the summary `errx`. -/
def lba (fe_flags fe_physical : Nat) : List Warning × Except Failure Nat :=
  let st := lbaChecks fe_flags fe_physical
  if st.2 then
    (st.1, .error .unbootable)
  else
    (st.1, .ok (fe_physical / 512 % 2 ^ 32))

/-! ## Boot-record composition -/

/-- The libc `memset` on the first `n` bytes of `dst`. -/
def memset (dst : List Nat) (c n : Nat) : List Nat :=
  (List.range n).foldl (fun d k => d.set k (c % 256)) dst

/-- The libc `memcpy (dst + off, src, n)`. -/
def memcpy (dst : List Nat) (off : Nat) (src : List Nat) (n : Nat) : List Nat :=
  (List.range n).foldl (fun d k => d.set (off + k) (rd src k)) dst

/-- Copies MLB code to the MBR buffer. -/
def mlbcopy (mbr mlb : List Nat) (mlblen : Nat) : List Nat :=
  memcpy mbr 0 mlb mlblen

/-- Copies the kernel LBA to the MBR buffer.  The pointer `mbr + mlblen - 5`
lies inside the array for `5 ≤ mlblen`, the range in which the subtraction
below is the one of the C program. -/
def lbacopy (mbr : List Nat) (mlblen lba : Nat) : List Nat :=
  memcpy mbr (mlblen - 5) (le32 lba) 4

/-- The body of the loop of `cmdcopy` at index `i`. -/
def cmdcopyStep (clen : Nat) (mbr : List Nat) (i : Nat) : List Nat :=
  if rd mbr i = 0xca ∧ rd mbr (i + 1) = 0xfe then
    memcpy mbr i (le16 clen) 2
  else
    mbr

/-- The loop of `cmdcopy` run for the indices `0 .. n - 1`. -/
def cmdcopyLoop (clen : Nat) (mbr : List Nat) (n : Nat) : List Nat :=
  (List.range n).foldl (cmdcopyStep clen) mbr

/-- Copies the kernel command line to the MBR buffer.  For `1 ≤ mlblen` the
`size_t` value `mlblen - 1` does not wrap around. -/
def cmdcopy (mbr : List Nat) (mlblen : Nat) (cmd : List Nat) (clen : Nat) : List Nat :=
  cmdcopyLoop clen (memcpy mbr (mlblen - 1) cmd clen) (mlblen - 1)

/-- Lines 212 to 216 of `main`: `mbr` is the uninitialised 510-byte array,
`mlb_bin` the loader stub of `mlb_bin.h` with `mlb_bin_len` its length. -/
def compose (mbr : List Nat) (mbr_len : Nat) (mlb_bin : List Nat) (kernel_lba : Nat)
    (cmdline : List Nat) (cmdline_len : Nat) : List Nat :=
  let mlb_bin_len := mlb_bin.length
  let mbr := memset mbr 0 mbr_len
  let mbr := mlbcopy mbr mlb_bin mlb_bin_len
  let mbr := lbacopy mbr mlb_bin_len kernel_lba
  cmdcopy mbr mlb_bin_len cmdline cmdline_len

/-- The capacity `mbr_len` chosen by `main`. -/
def mbrLen (vbr : Bool) : Nat := if vbr then 510 else 446

/-! ## Writing the boot record -/

/-- A successful `fwrite` of `data` at file position `pos`: bytes inside the
file are replaced, a write past the end extends the file. -/
def fileWrite (f : List Nat) (pos : Nat) (data : List Nat) : List Nat :=
  f.take pos ++ List.replicate (pos - f.length) 0 ++ data ++ f.drop (pos + data.length)

/-- The function `mbrwrite` when every stdio call succeeds: the contents of the
target afterwards. -/
def mbrwrite (target mbr : List Nat) : List Nat :=
  let f := fileWrite target 0 (mbr.take 446)
  let magic := 0xaa55
  fileWrite f 510 (le16 magic)

/-- The ASCII bytes of a string literal. -/
def ascii (s : String) : List Nat := s.toList.map Char.toNat


/-! ## Observations used to state the properties

These follow the wording of the specification, not the code. -/

/-- The four bytes at 0x202 are the boot-protocol signature 'H','d','r','S'. -/
def HasSignature (m : List Nat) : Prop :=
  rd m 0x202 = 0x48 ∧ rd m 0x203 = 0x64 ∧ rd m 0x204 = 0x72 ∧ rd m 0x205 = 0x53

instance (m : List Nat) : Decidable (HasSignature m) := by
  unfold HasSignature; infer_instance

/-- The 2-byte field at 0x206 read big-endian. -/
def versionField (m : List Nat) : Nat := rd m 0x206 * 256 + rd m 0x207

/-- Bit 0 of the flags byte at 0x211. -/
def LoadHigh (m : List Nat) : Prop := rd m 0x211 % 2 = 1

instance (m : List Nat) : Decidable (LoadHigh m) := by
  unfold LoadHigh; infer_instance

/-- A kernel header of 0x212 bytes: zero except the signature "HdrS", the two
version bytes `v0`, `v1` at 0x206, 0x207 and the flags byte at 0x211. -/
def sampleHeader (v0 v1 flags : Nat) : List Nat :=
  List.replicate 0x202 0 ++ [0x48, 0x64, 0x72, 0x53, v0, v1] ++ List.replicate 9 0 ++ [flags]

/-- The condition of the specification that each diagnostic reports, on the
flags word and physical byte offset of the extent: LAST is bit 0 (0x1),
UNKNOWN bit 1 (0x2), DELALLOC bit 2 (0x4), ENCODED bit 3 (0x8),
DATA_ENCRYPTED bit 7 (0x80), NOT_ALIGNED bit 8 (0x100), UNWRITTEN bit 11
(0x800). -/
def violated (w : Warning) (fe_flags fe_physical : Nat) : Bool :=
  match w with
  | .fragmented => !fe_flags.testBit 0
  | .unknown => fe_flags.testBit 1
  | .delalloc => fe_flags.testBit 2
  | .encoded => fe_flags.testBit 3
  | .encrypted => fe_flags.testBit 7
  | .notAligned => fe_flags.testBit 8
  | .unwritten => fe_flags.testBit 11
  | .beyond2TB => decide (2 ^ 32 - 1 < fe_physical / 512)

/-- The seven integrity flags, each with the diagnostic that names it. -/
def integrityFlags : List (Nat × Warning) :=
  [(FIEMAP_EXTENT_LAST, .fragmented), (FIEMAP_EXTENT_UNKNOWN, .unknown),
   (FIEMAP_EXTENT_DELALLOC, .delalloc), (FIEMAP_EXTENT_ENCODED, .encoded),
   (FIEMAP_EXTENT_DATA_ENCRYPTED, .encrypted), (FIEMAP_EXTENT_NOT_ALIGNED, .notAligned),
   (FIEMAP_EXTENT_UNWRITTEN, .unwritten)]

/-- The zero-terminated byte string found at offset `off` of a buffer: the bytes
up to the first zero byte, and that zero byte. -/
def readCString (m : List Nat) (off : Nat) : List Nat :=
  (m.drop off).takeWhile (fun c => c ≠ 0) ++ [0]

/-- A command line followed by its terminating zero byte. -/
def withTerminator (cmdline : List Nat) : List Nat :=
  cmdline.takeWhile (fun c => c ≠ 0) ++ [0]

/-- An eight-byte loader stub without marker: two code bytes, the four
placeholder bytes of the address, one more byte and the final zero byte. -/
def sampleStub : List Nat := [0xeb, 0x3c, 0x90, 0, 0, 0, 0, 0]

/-- An eight-byte loader stub whose address placeholder (offsets 3 to 6) starts
with the marker bytes CA FE. -/
def markerInAddressStub : List Nat := [0xeb, 0x3c, 0x90, 0xca, 0xfe, 0, 0, 0]

/-- A thirteen-byte loader stub with three markers (offsets 0, 3 and 5) before
its address placeholder (offsets 8 to 11). -/
def threeMarkerStub : List Nat :=
  [0xca, 0xfe, 0x90, 0xca, 0xfe, 0xca, 0xfe, 0x90, 0, 0, 0, 0, 0]

/-! ## The driver -/

/-- What one run of the program leaves behind: how it ended, the diagnostics of
`lba`, whether `mbrwrite` was called, and the contents of the target. -/
structure Run where
  result : Except Failure Unit
  warnings : List Warning
  mbrwriteCalled : Bool
  target : List Nat

/-- The exit status of the process: `errx (1, ...)` exits with 1, the end of
`main` with 0. -/
def Run.exitStatus (r : Run) : Nat :=
  match r.result with
  | .ok _ => 0
  | .error _ => 1

/-- The function `main` after its argument parsing, when every system call
succeeds: `vbr` is the `-vbr` flag, `kernel` the mapped start of the kernel
image, `fe_flags` and `fe_physical` the extent the ioctl returns for it,
`mlb_bin` the loader stub, `mbr0` the uninitialised array `mbr`, `cmdline`
the third argument and `target` the contents of the target before the run. -/
def main (vbr : Bool) (kernel : List Nat) (fe_flags fe_physical : Nat)
    (mlb_bin mbr0 cmdline target : List Nat) : Run :=
  match check_version kernel with
  | .error e => ⟨.error e, [], false, target⟩
  | .ok _ =>
    let mbr_len := if vbr then 510 else 446
    match cmdlen cmdline mlb_bin.length mbr_len with
    | .error e => ⟨.error e, [], false, target⟩
    | .ok cmdline_len =>
      match lba fe_flags fe_physical with
      | (ws, .error e) => ⟨.error e, ws, false, target⟩
      | (ws, .ok kernel_lba) =>
        let mbr := compose mbr0 mbr_len mlb_bin kernel_lba cmdline cmdline_len
        ⟨.ok (), ws, true, mbrwrite target mbr⟩

/-! ## Indices touched by the composition -/

/-- The indices of the destination array that `memcpy (dst + off, src, n)`
writes. -/
def memcpyIndices (off n : Nat) : List Nat := (List.range n).map (fun k => off + k)

/-- The indices of `mbr` that `lbacopy` writes. -/
def lbacopyIndices (mlblen : Nat) : List Nat := memcpyIndices (mlblen - 5) 4

/-- The indices of `mbr` that `cmdcopy` writes or reads: the destination of its
`memcpy`, then for each `i` of the loop the tested bytes `i`, `i + 1` and the
destination `i`, `i + 1` of the patch. -/
def cmdcopyIndices (mlblen clen : Nat) : List Nat :=
  memcpyIndices (mlblen - 1) clen ++
    (List.range (mlblen - 1)).flatMap (fun i => [i, i + 1] ++ memcpyIndices i 2)

/-! ## Simultaneous replacement of the marker -/

/-- The positions `i < n` at which the buffer holds the marker 0xCA, 0xFE. -/
def markerPositions (m : List Nat) (n : Nat) : List Nat :=
  (List.range n).filter (fun i => rd m i = 0xca ∧ rd m (i + 1) = 0xfe)

/-- The buffer with the two bytes at each of the given positions replaced by the
little-endian encoding of `clen`. -/
def replaceAt (clen : Nat) (m : List Nat) (ps : List Nat) : List Nat :=
  ps.foldl (fun b i => memcpy b i (le16 clen) 2) m

/-- The replacement, at once, of every marker that the buffer holds at a
position below `n`: the positions are those of the buffer as it is before any
replacement. -/
def replaceAllMarkers (clen : Nat) (m : List Nat) (n : Nat) : List Nat :=
  replaceAt clen m (markerPositions m n)

/-- A sixteen-byte buffer with the marker at the positions 0, 3 and 5. -/
def sampleBuffer : List Nat :=
  [0xca, 0xfe, 0x90, 0xca, 0xfe, 0xca, 0xfe, 0x90, 0, 8, 0, 0, 0x72, 0x6f, 0, 0]

/-! ## Helper lemmas: bytes and C strings -/

theorem rd_lt_of_isBytes {m : List Nat} (hb : IsBytes m) (i : Nat) : rd m i < 256 := by
  unfold rd
  rw [List.getD_eq_getElem?_getD]
  cases h : m[i]? with
  | none => simp
  | some b =>
    have hmem : b ∈ m := by
      rw [List.getElem?_eq_some_iff] at h
      obtain ⟨hi, rfl⟩ := h
      exact List.getElem_mem hi
    simpa using hb b hmem

theorem strnlen_eq_min (s : List Nat) (n : Nat) : strnlen s n = min (strlen s) n := by
  induction s generalizing n with
  | nil => cases n <;> simp [strnlen, strlen]
  | cons c cs ih =>
    cases n with
    | zero => simp [strnlen]
    | succ n =>
      by_cases hc : c = 0
      · simp [strnlen, strlen, hc]
      · have := ih n
        simp only [strlen] at this
        simp [strnlen, strlen, hc, List.takeWhile_cons, this]
        omega

theorem maxlen_eq {S C : Nat} (hS : S ≤ C) (hC : C + 1 < 2 ^ 64) :
    (C + 2 ^ 64 - S + 1) % 2 ^ 64 = C - S + 1 := by
  omega

theorem cmdlen_eq (cmdline : List Nat) {S C : Nat} (hS : S ≤ C) (hC : C + 1 < 2 ^ 64) :
    cmdlen cmdline S C =
      if C - S + 1 ≤ strlen cmdline then .error (.cmdlineTooLong (C - S + 1))
      else .ok ((strlen cmdline + 1) % 2 ^ 16) := by
  unfold cmdlen
  simp only [maxlen_eq hS hC, strnlen_eq_min]
  by_cases h : C - S + 1 ≤ strlen cmdline
  · rw [if_pos (by omega), if_pos h]
  · rw [if_neg (by omega), if_neg h, Nat.min_eq_left (by omega)]

/-! ## Command-line length (C2, C3) -/

/-- C2, as stated, fails: with stub length 440 and capacity 446 the six-byte
command line "123456" has L + 1 = C - S + 1 = 7, so the claim wants the
"too long" error, yet `cmdlen` accepts it and returns 7. -/
theorem cmdlen_boundary_counterexample :
    strlen (ascii "123456") + 1 = 446 - 440 + 1 ∧
    cmdlen (ascii "123456") 440 446 = .ok 7 ∧
    ¬ ((∃ v, cmdlen (ascii "123456") 440 446 = .ok v) ↔
        strlen (ascii "123456") + 1 < 446 - 440 + 1) := by
  refine ⟨by decide, by decide, ?_⟩
  intro h
  have h2 : strlen (ascii "123456") + 1 < 446 - 440 + 1 := h.mp ⟨7, by decide⟩
  revert h2
  decide

/-- C2, amended: for S ≤ C with C + 1 < 2^64, `cmdlen` succeeds if and only if
L + 1 ≤ C - S + 1 (that is L < C - S + 1); at L + 1 = C - S + 1 it succeeds
and returns (C - S + 1) mod 2^16, which is C - S + 1 itself whenever
C - S + 1 < 2^16 (so for both capacities 446 and 510); the first rejected
length is L = C - S + 1, which fails with the "Command line too long" error. -/
theorem cmdlen_succeeds_iff (cmdline : List Nat) (S C : Nat) (hS : S ≤ C)
    (hC : C + 1 < 2 ^ 64) :
    ((∃ v, cmdlen cmdline S C = .ok v) ↔ strlen cmdline + 1 ≤ C - S + 1) ∧
    (strlen cmdline + 1 = C - S + 1 →
      cmdlen cmdline S C = .ok ((C - S + 1) % 2 ^ 16)) ∧
    (strlen cmdline + 1 = C - S + 1 → C - S + 1 < 2 ^ 16 →
      cmdlen cmdline S C = .ok (C - S + 1)) ∧
    (strlen cmdline = C - S + 1 →
      cmdlen cmdline S C = .error (.cmdlineTooLong (C - S + 1))) := by
  rw [cmdlen_eq cmdline hS hC]
  refine ⟨?_, ?_, ?_, ?_⟩
  · by_cases h : C - S + 1 ≤ strlen cmdline
    · rw [if_pos h]
      constructor
      · rintro ⟨v, hv⟩
        cases hv
      · intro h2
        omega
    · rw [if_neg h]
      exact ⟨fun _ => by omega, fun _ => ⟨_, rfl⟩⟩
  · intro h
    rw [if_neg (by omega), h]
  · intro h hlt
    rw [if_neg (by omega), h, Nat.mod_eq_of_lt hlt]
  · intro h
    rw [if_pos (by omega)]

theorem cmdlen_succeeds_iff_witness :
    strlen (ascii "123456") + 1 = 446 - 440 + 1 ∧ 446 - 440 + 1 < 2 ^ 16 ∧
    cmdlen (ascii "123456") 440 446 = .ok (446 - 440 + 1) ∧
    ((∃ v, cmdlen (ascii "123456") 440 446 = .ok v) ↔
        strlen (ascii "123456") + 1 ≤ 446 - 440 + 1) :=
  ⟨by decide, by decide,
   (cmdlen_succeeds_iff (ascii "123456") 440 446 (by decide) (by decide)).2.2.1
     (by decide) (by decide),
   (cmdlen_succeeds_iff (ascii "123456") 440 446 (by decide) (by decide)).1⟩

/-- C3: for S ≤ C and max = C - S + 1 (C a boot-record capacity, so that max
fits in 16 bits), `cmdlen` fails with the "too long" error exactly when the
natural length L of the command line is at least max, and otherwise returns
exactly L + 1: the whole command line and its terminator, never a truncation. -/
theorem cmdlen_too_long_iff (cmdline : List Nat) (S C : Nat) (hS : S ≤ C) (hC : C < 65535) :
    (cmdlen cmdline S C = .error (.cmdlineTooLong (C - S + 1)) ↔
        C - S + 1 ≤ strlen cmdline) ∧
    (strlen cmdline < C - S + 1 → cmdlen cmdline S C = .ok (strlen cmdline + 1)) := by
  rw [cmdlen_eq cmdline hS (by omega)]
  constructor
  · by_cases h : C - S + 1 ≤ strlen cmdline
    · simp [h]
    · simp [h]
  · intro h
    rw [if_neg (by omega), Nat.mod_eq_of_lt (by omega)]

theorem cmdlen_too_long_iff_witness :
    (cmdlen (ascii "1234567") 440 446 = .error (.cmdlineTooLong (446 - 440 + 1)) ↔
        446 - 440 + 1 ≤ strlen (ascii "1234567")) ∧
    (strlen (ascii "1234567") < 446 - 440 + 1 →
      cmdlen (ascii "1234567") 440 446 = .ok (strlen (ascii "1234567") + 1)) :=
  cmdlen_too_long_iff (ascii "1234567") 440 446 (by decide) (by decide)

/-! ## Kernel header validation (C6, C7) -/

theorem load32_eq_signature_iff {b0 b1 b2 b3 : Nat} (h0 : b0 < 256) (h1 : b1 < 256)
    (h2 : b2 < 256) :
    b0 + 256 * b1 + 65536 * b2 + 16777216 * b3 = 0x53726448 ↔
      b0 = 0x48 ∧ b1 = 0x64 ∧ b2 = 0x72 ∧ b3 = 0x53 := by
  omega

theorem version_eq {b0 b1 : Nat} (h0 : b0 < 256) (h1 : b1 < 256) :
    be16toh (b0 + 256 * b1) = b0 * 256 + b1 := by
  unfold be16toh
  omega

theorem load32_signature_iff (m : List Nat) (hb : IsBytes m) :
    load32 m 0x202 = 0x53726448 ↔ HasSignature m := by
  unfold load32 HasSignature
  exact load32_eq_signature_iff (rd_lt_of_isBytes hb _) (rd_lt_of_isBytes hb _)
    (rd_lt_of_isBytes hb _)

theorem check_version_eq (m : List Nat) (hb : IsBytes m) :
    check_version m =
      if ¬ HasSignature m then .error .missingHeader
      else if versionField m < 0x204 then .error (.kernelTooOld (versionField m))
      else if ¬ LoadHigh m then .error .needsLoadHigh
      else .ok () := by
  have hv : be16toh (load16 m 0x206) = versionField m := by
    unfold load16 versionField
    exact version_eq (rd_lt_of_isBytes hb _) (rd_lt_of_isBytes hb _)
  have hl : (rd m 0x211 &&& 0x01 = 0) ↔ ¬ LoadHigh m := by
    unfold LoadHigh
    rw [Nat.and_one_is_mod]
    omega
  unfold check_version
  simp only [hv, load32_signature_iff m hb, ne_eq, hl]

/-- C6: for every kernel header of at least 0x212 bytes, `check_version` passes
if and only if the bytes at 0x202..0x205 are 'H','d','r','S' (the word
0x53726448 read little-endian), the version byte[0x206]*256 + byte[0x207] is at
least 0x204, and bit 0 of the byte at 0x211 is set. -/
theorem check_version_ok_iff (m : List Nat) (_hlen : 0x212 ≤ m.length) (hb : IsBytes m) :
    check_version m = .ok () ↔
      (HasSignature m ∧ load32 m 0x202 = 0x53726448) ∧ 0x204 ≤ versionField m ∧ LoadHigh m := by
  rw [check_version_eq m hb, load32_signature_iff m hb]
  by_cases h1 : HasSignature m
  · by_cases h2 : versionField m < 0x204
    · simp [h1, h2]
    · by_cases h3 : LoadHigh m
      · simp [h1, h2, h3]
        omega
      · simp [h1, h2, h3]
  · simp [h1]

set_option maxRecDepth 100000 in
theorem check_version_ok_iff_witness :
    check_version (sampleHeader 0x02 0x04 0x01) = .ok () ↔
      (HasSignature (sampleHeader 0x02 0x04 0x01) ∧
        load32 (sampleHeader 0x02 0x04 0x01) 0x202 = 0x53726448) ∧
      0x204 ≤ versionField (sampleHeader 0x02 0x04 0x01) ∧
      LoadHigh (sampleHeader 0x02 0x04 0x01) :=
  check_version_ok_iff (sampleHeader 0x02 0x04 0x01) (by decide) (by decide)

/-- C7: `check_version` tests signature, version, load-high in this order and
reports one error per cause: a wrong signature gives the missing-header error
whatever the other fields hold, a right signature with version below 0x204
gives the kernel-too-old error, a right signature and version with bit 0 of
the flags clear gives the load-high error; the three errors and their
messages are pairwise different. -/
theorem check_version_error_order (m : List Nat) (_hlen : 0x212 ≤ m.length) (hb : IsBytes m) :
    (¬ HasSignature m → check_version m = .error .missingHeader) ∧
    (HasSignature m → versionField m < 0x204 →
      check_version m = .error (.kernelTooOld (versionField m))) ∧
    (HasSignature m → 0x204 ≤ versionField m → ¬ LoadHigh m →
      check_version m = .error .needsLoadHigh) ∧
    (∀ v, Failure.missingHeader ≠ Failure.kernelTooOld v ∧
      Failure.kernelTooOld v ≠ Failure.needsLoadHigh ∧
      Failure.missingHeader ≠ Failure.needsLoadHigh ∧
      Failure.missingHeader.format ≠ (Failure.kernelTooOld v).format ∧
      (Failure.kernelTooOld v).format ≠ Failure.needsLoadHigh.format ∧
      Failure.missingHeader.format ≠ Failure.needsLoadHigh.format) := by
  rw [check_version_eq m hb]
  refine ⟨?_, ?_, ?_, ?_⟩
  · intro h1
    simp [h1]
  · intro h1 h2
    simp [h1, h2]
  · intro h1 h2 h3
    have h2n : ¬ versionField m < 0x204 := by omega
    simp [h1, h2n, h3]
  · intro v
    refine ⟨by simp, by simp, by simp, ?_, ?_, ?_⟩ <;> simp only [Failure.format] <;> decide

set_option maxRecDepth 100000 in
theorem check_version_error_order_witness :
    versionField (sampleHeader 0x02 0x03 0x01) = 0x203 ∧
    check_version (sampleHeader 0x02 0x03 0x01) = .error (.kernelTooOld 0x203) ∧
    ((¬ HasSignature (sampleHeader 0x02 0x03 0x01) →
        check_version (sampleHeader 0x02 0x03 0x01) = .error .missingHeader) ∧
    (HasSignature (sampleHeader 0x02 0x03 0x01) → versionField (sampleHeader 0x02 0x03 0x01) < 0x204 →
      check_version (sampleHeader 0x02 0x03 0x01) =
        .error (.kernelTooOld (versionField (sampleHeader 0x02 0x03 0x01)))) ∧
    (HasSignature (sampleHeader 0x02 0x03 0x01) → 0x204 ≤ versionField (sampleHeader 0x02 0x03 0x01) →
      ¬ LoadHigh (sampleHeader 0x02 0x03 0x01) →
      check_version (sampleHeader 0x02 0x03 0x01) = .error .needsLoadHigh) ∧
    (∀ v, Failure.missingHeader ≠ Failure.kernelTooOld v ∧
      Failure.kernelTooOld v ≠ Failure.needsLoadHigh ∧
      Failure.missingHeader ≠ Failure.needsLoadHigh ∧
      Failure.missingHeader.format ≠ (Failure.kernelTooOld v).format ∧
      (Failure.kernelTooOld v).format ≠ Failure.needsLoadHigh.format ∧
      Failure.missingHeader.format ≠ Failure.needsLoadHigh.format)) :=
  ⟨by decide, by decide,
    check_version_error_order (sampleHeader 0x02 0x03 0x01) (by decide) (by decide)⟩

/-! ## Extent resolution (C8, C9) -/

theorem and_two_pow_eq_zero_iff (x k : Nat) : x &&& 2 ^ k = 0 ↔ x.testBit k = false := by
  constructor
  · intro h
    have h2 : (x &&& 2 ^ k).testBit k = false := by rw [h]; simp
    simpa [Nat.testBit_and, Nat.testBit_two_pow_self] using h2
  · intro h
    apply Nat.eq_of_testBit_eq
    intro i
    by_cases hik : k = i
    · subst hik
      simp [h]
    · simp [Nat.testBit_two_pow, hik]

theorem flag_clear_test (x k : Nat) : decide (x &&& 2 ^ k = 0) = !x.testBit k := by
  have h := and_two_pow_eq_zero_iff x k
  cases hb : x.testBit k <;> simp [hb] at h ⊢ <;> exact h

theorem flag_set_test (x k : Nat) : decide (x &&& 2 ^ k ≠ 0) = x.testBit k := by
  have h := and_two_pow_eq_zero_iff x k
  cases hb : x.testBit k <;> simp [hb] at h ⊢ <;> exact h

theorem warnIf_eq (c : Bool) (w : Warning) (st : List Warning × Bool) :
    warnIf c w st = (st.1 ++ (if c then [w] else []), st.2 || c) := by
  cases c <;> simp [warnIf]

theorem lbaChecks_eq (fl p : Nat) :
    lbaChecks fl p =
      ((if fl.testBit 0 then [] else [Warning.fragmented]) ++
        (if fl.testBit 1 then [Warning.unknown] else []) ++
        (if fl.testBit 2 then [Warning.delalloc] else []) ++
        (if fl.testBit 3 then [Warning.encoded] else []) ++
        (if fl.testBit 7 then [Warning.encrypted] else []) ++
        (if fl.testBit 8 then [Warning.notAligned] else []) ++
        (if fl.testBit 11 then [Warning.unwritten] else []) ++
        (if 2 ^ 32 - 1 < p / 512 then [Warning.beyond2TB] else []),
       !fl.testBit 0 || fl.testBit 1 || fl.testBit 2 || fl.testBit 3 || fl.testBit 7 ||
        fl.testBit 8 || fl.testBit 11 || decide (2 ^ 32 - 1 < p / 512)) := by
  have e0 : decide (fl &&& 1 = 0) = !fl.testBit 0 := flag_clear_test fl 0
  have e1 : decide (fl &&& 2 ≠ 0) = fl.testBit 1 := flag_set_test fl 1
  have e2 : decide (fl &&& 4 ≠ 0) = fl.testBit 2 := flag_set_test fl 2
  have e3 : decide (fl &&& 8 ≠ 0) = fl.testBit 3 := flag_set_test fl 3
  have e7 : decide (fl &&& 128 ≠ 0) = fl.testBit 7 := flag_set_test fl 7
  have e8 : decide (fl &&& 256 ≠ 0) = fl.testBit 8 := flag_set_test fl 8
  have e11 : decide (fl &&& 2048 ≠ 0) = fl.testBit 11 := flag_set_test fl 11
  have e32 : (p / 512 > 4294967295) ↔ (2 ^ 32 - 1 < p / 512) := by
    norm_num
  unfold lbaChecks
  simp only [warnIf_eq, FIEMAP_EXTENT_LAST, FIEMAP_EXTENT_UNKNOWN, FIEMAP_EXTENT_DELALLOC,
    FIEMAP_EXTENT_ENCODED, FIEMAP_EXTENT_DATA_ENCRYPTED, FIEMAP_EXTENT_NOT_ALIGNED,
    FIEMAP_EXTENT_UNWRITTEN, e0, e1, e2, e3, e7, e8, e11, e32]
  cases fl.testBit 0 <;> simp

theorem lba_eq (fl p : Nat) :
    lba fl p =
      ((if fl.testBit 0 then [] else [Warning.fragmented]) ++
        (if fl.testBit 1 then [Warning.unknown] else []) ++
        (if fl.testBit 2 then [Warning.delalloc] else []) ++
        (if fl.testBit 3 then [Warning.encoded] else []) ++
        (if fl.testBit 7 then [Warning.encrypted] else []) ++
        (if fl.testBit 8 then [Warning.notAligned] else []) ++
        (if fl.testBit 11 then [Warning.unwritten] else []) ++
        (if 2 ^ 32 - 1 < p / 512 then [Warning.beyond2TB] else []),
       if (!fl.testBit 0 || fl.testBit 1 || fl.testBit 2 || fl.testBit 3 || fl.testBit 7 ||
          fl.testBit 8 || fl.testBit 11 || decide (2 ^ 32 - 1 < p / 512)) = true
       then .error .unbootable else .ok (p / 512 % 2 ^ 32)) := by
  unfold lba
  rw [lbaChecks_eq]
  dsimp only
  split <;> rfl

/-- C8: `lba` succeeds exactly on a usable extent (LAST set, none of UNKNOWN,
DELALLOC, ENCODED, DATA_ENCRYPTED, NOT_ALIGNED, UNWRITTEN set, and
physical / 512 at most 2^32 - 1), and then returns physical / 512 itself: the
conversion to 32 bits loses nothing.  A clean extent at byte offset 1048576
gives sector 2048. -/
theorem lba_ok_iff (fe_flags fe_physical : Nat) :
    ((∃ v, (lba fe_flags fe_physical).2 = .ok v) ↔
      (fe_flags.testBit 0 = true ∧ fe_flags.testBit 1 = false ∧ fe_flags.testBit 2 = false ∧
        fe_flags.testBit 3 = false ∧ fe_flags.testBit 7 = false ∧ fe_flags.testBit 8 = false ∧
        fe_flags.testBit 11 = false ∧ fe_physical / 512 ≤ 2 ^ 32 - 1)) ∧
    (∀ v, (lba fe_flags fe_physical).2 = .ok v → v = fe_physical / 512) ∧
    lba FIEMAP_EXTENT_LAST 1048576 = ([], .ok 2048) := by
  refine ⟨?_, ?_, by decide⟩
  · rw [lba_eq]
    dsimp only
    generalize fe_flags.testBit 0 = b0
    generalize fe_flags.testBit 1 = b1
    generalize fe_flags.testBit 2 = b2
    generalize fe_flags.testBit 3 = b3
    generalize fe_flags.testBit 7 = b7
    generalize fe_flags.testBit 8 = b8
    generalize fe_flags.testBit 11 = b11
    by_cases hp : 4294967295 < fe_physical / 512
    · simp [hp]
    · have hp2 : fe_physical / 512 ≤ 4294967295 := by omega
      cases b0 <;> cases b1 <;> cases b2 <;> cases b3 <;> cases b7 <;> cases b8 <;>
        cases b11 <;> simp [hp, hp2]
  · intro v hv
    rw [lba_eq] at hv
    dsimp only at hv
    split at hv
    · cases hv
    · rename_i hE
      simp only [Except.ok.injEq] at hv
      have hp : ¬ 2 ^ 32 - 1 < fe_physical / 512 := by
        intro hlt
        apply hE
        rw [Bool.or_eq_true]
        exact Or.inr (decide_eq_true hlt)
      rw [← hv]
      omega

theorem count_ite_singleton (c : Prop) [Decidable c] (w v : Warning) :
    (if c then [v] else []).count w = if c ∧ v = w then 1 else 0 := by
  by_cases hc : c <;> by_cases h : v = w <;> simp [hc, h, List.count_cons]

theorem count_ite_singleton_else (c : Prop) [Decidable c] (w v : Warning) :
    (if c then [] else [v]).count w = if ¬ c ∧ v = w then 1 else 0 := by
  by_cases hc : c <;> by_cases h : v = w <;> simp [hc, h, List.count_cons]

theorem testBit_xor_two_pow (x k j : Nat) :
    (x ^^^ 2 ^ k).testBit j = (x.testBit j ^^ decide (k = j)) := by
  rw [Nat.testBit_xor, Nat.testBit_two_pow]

/-- C9: `lba` reports every violated condition, then fails: its diagnostics
hold exactly one warning for each violated condition among the eight and none
for a satisfied one, distinct conditions have distinct messages, the outcome is
the summary error if and only if some warning was printed, and flipping one of
the seven integrity flags of a clean extent gives the failure with exactly the
warning of that flag. -/
theorem lba_reports_all (fe_flags fe_physical : Nat) :
    (∀ w, (lba fe_flags fe_physical).1.count w =
        if violated w fe_flags fe_physical then 1 else 0) ∧
    ((lba fe_flags fe_physical).2 = .error .unbootable ↔ (lba fe_flags fe_physical).1 ≠ []) ∧
    (∀ w v : Warning, w.format = v.format → w = v) ∧
    ((∀ w, violated w fe_flags fe_physical = false) →
      ∀ x ∈ integrityFlags, lba (fe_flags ^^^ x.1) fe_physical = ([x.2], .error .unbootable)) := by
  refine ⟨?_, ?_, ?_, ?_⟩
  · intro w
    rw [lba_eq]
    simp only [List.count_append, count_ite_singleton, count_ite_singleton_else]
    cases w <;> simp [violated]
  · rw [lba_eq]
    dsimp only
    generalize fe_flags.testBit 0 = b0
    generalize fe_flags.testBit 1 = b1
    generalize fe_flags.testBit 2 = b2
    generalize fe_flags.testBit 3 = b3
    generalize fe_flags.testBit 7 = b7
    generalize fe_flags.testBit 8 = b8
    generalize fe_flags.testBit 11 = b11
    by_cases hp : 4294967295 < fe_physical / 512
    · simp [hp]
    · cases b0 <;> cases b1 <;> cases b2 <;> cases b3 <;> cases b7 <;> cases b8 <;>
        cases b11 <;> simp [hp]
  · intro w v
    cases w <;> cases v <;> simp only [Warning.format] <;> decide
  · intro hclean x hx
    have h0 := hclean .fragmented
    have h1 := hclean .unknown
    have h2 := hclean .delalloc
    have h3 := hclean .encoded
    have h7 := hclean .encrypted
    have h8 := hclean .notAligned
    have h11 := hclean .unwritten
    have hp := hclean .beyond2TB
    simp only [violated, Bool.not_eq_false', decide_eq_false_iff_not] at h0 h1 h2 h3 h7 h8 h11 hp
    simp only [integrityFlags, List.mem_cons, List.mem_singleton, List.not_mem_nil, or_false] at hx
    have e0 : FIEMAP_EXTENT_LAST = 2 ^ 0 := rfl
    have e1 : FIEMAP_EXTENT_UNKNOWN = 2 ^ 1 := rfl
    have e2 : FIEMAP_EXTENT_DELALLOC = 2 ^ 2 := rfl
    have e3 : FIEMAP_EXTENT_ENCODED = 2 ^ 3 := rfl
    have e7 : FIEMAP_EXTENT_DATA_ENCRYPTED = 2 ^ 7 := rfl
    have e8 : FIEMAP_EXTENT_NOT_ALIGNED = 2 ^ 8 := rfl
    have e11 : FIEMAP_EXTENT_UNWRITTEN = 2 ^ 11 := rfl
    rcases hx with rfl | rfl | rfl | rfl | rfl | rfl | rfl <;>
      simp only [e0, e1, e2, e3, e7, e8, e11, lba_eq, testBit_xor_two_pow, h0, h1, h2, h3, h7, h8,
        h11, hp] <;> simp

theorem lba_reports_all_witness :
    lba (FIEMAP_EXTENT_LAST ^^^ FIEMAP_EXTENT_LAST) 1048576 =
      ([Warning.fragmented], .error .unbootable) ∧
    lba (FIEMAP_EXTENT_LAST ^^^ FIEMAP_EXTENT_DATA_ENCRYPTED) 1048576 =
      ([Warning.encrypted], .error .unbootable) ∧
    lba (FIEMAP_EXTENT_LAST ^^^ FIEMAP_EXTENT_UNWRITTEN) 1048576 =
      ([Warning.unwritten], .error .unbootable) :=
  have hclean : ∀ w, violated w FIEMAP_EXTENT_LAST 1048576 = false := by
    intro w
    cases w <;> decide
  ⟨(lba_reports_all FIEMAP_EXTENT_LAST 1048576).2.2.2 hclean (FIEMAP_EXTENT_LAST, .fragmented)
      (by decide),
   (lba_reports_all FIEMAP_EXTENT_LAST 1048576).2.2.2 hclean
      (FIEMAP_EXTENT_DATA_ENCRYPTED, .encrypted) (by decide),
   (lba_reports_all FIEMAP_EXTENT_LAST 1048576).2.2.2 hclean (FIEMAP_EXTENT_UNWRITTEN, .unwritten)
      (by decide)⟩

/-! ## Writing the boot record (C10) -/

theorem length_fileWrite (f : List Nat) (pos : Nat) (data : List Nat) :
    (fileWrite f pos data).length = max f.length (pos + data.length) := by
  unfold fileWrite
  simp only [List.length_append, List.length_take, List.length_replicate, List.length_drop]
  omega

theorem rd_fileWrite (f : List Nat) (pos : Nat) (data : List Nat) (j : Nat) :
    rd (fileWrite f pos data) j =
      if pos ≤ j ∧ j < pos + data.length then rd data (j - pos) else rd f j := by
  unfold fileWrite rd
  by_cases h1 : j < pos
  · rw [if_neg (by omega), List.append_assoc, List.append_assoc]
    by_cases h2 : j < f.length
    · rw [List.getD_append _ _ _ _ (by simp; omega)]
      simp only [List.getD_eq_getElem?_getD, List.getElem?_take_of_lt h1]
    · have ht : (List.take pos f).length = f.length := by
        rw [List.length_take]
        omega
      rw [List.getD_append_right _ _ _ _ (by omega),
        List.getD_append _ _ _ _ (by rw [List.length_replicate]; omega),
        List.getD_eq_default f 0 (by omega)]
      simp only [List.getD_eq_getElem?_getD, List.getElem?_replicate]
      split <;> rfl
  · have hlen : (List.take pos f ++ List.replicate (pos - f.length) 0).length = pos := by
      simp only [List.length_append, List.length_take, List.length_replicate]
      omega
    rw [List.append_assoc (List.take pos f ++ List.replicate (pos - f.length) 0),
      List.getD_append_right _ _ _ _ (by omega), hlen]
    by_cases h2 : j < pos + data.length
    · rw [if_pos ⟨by omega, h2⟩, List.getD_append _ _ _ _ (by omega)]
    · rw [if_neg (by omega), List.getD_append_right _ _ _ _ (by omega)]
      simp only [List.getD_eq_getElem?_getD, List.getElem?_drop]
      congr 2
      omega

/-- C10: after a successful `mbrwrite` on a target of at least 512 bytes, the
bytes at offsets 510 and 511 are 0x55 and 0xAA (0xAA55 read as a little-endian
word), whatever the buffer holds; in particular for the buffer `main` composes
with either capacity, 446 or 510. -/
theorem mbrwrite_signature (target mbr : List Nat) (_h : 512 ≤ target.length) :
    rd (mbrwrite target mbr) 510 = 0x55 ∧ rd (mbrwrite target mbr) 511 = 0xAA ∧
    load16 (mbrwrite target mbr) 510 = 0xAA55 ∧
    ∀ (vbr : Bool) (mbr0 mlb_bin cmdline : List Nat) (kernel_lba cmdline_len : Nat),
      load16 (mbrwrite target
        (compose mbr0 (mbrLen vbr) mlb_bin kernel_lba cmdline cmdline_len)) 510 = 0xAA55 := by
  have key : ∀ b : List Nat,
      rd (mbrwrite target b) 510 = 0x55 ∧ rd (mbrwrite target b) 511 = 0xAA := by
    intro b
    unfold mbrwrite
    simp only [rd_fileWrite, le16]
    constructor <;> simp [rd]
  refine ⟨(key mbr).1, (key mbr).2, ?_, ?_⟩
  · unfold load16
    rw [(key mbr).1, (key mbr).2]
  · intro vbr mbr0 mlb_bin cmdline kernel_lba cmdline_len
    unfold load16
    rw [(key _).1, (key _).2]

theorem mbrwrite_signature_witness :
    512 ≤ (List.replicate 512 0x11).length ∧
    rd (mbrwrite (List.replicate 512 0x11) (List.replicate 510 0x22)) 510 = 0x55 ∧
    rd (mbrwrite (List.replicate 512 0x11) (List.replicate 510 0x22)) 511 = 0xAA :=
  ⟨(List.length_replicate 512 0x11).ge,
   (mbrwrite_signature (List.replicate 512 0x11) (List.replicate 510 0x22)
      (List.length_replicate 512 0x11).ge).1,
   (mbrwrite_signature (List.replicate 512 0x11) (List.replicate 510 0x22)
      (List.length_replicate 512 0x11).ge).2.1⟩

/-! ## Helper lemmas: buffers -/

theorem rd_set (l : List Nat) (i v j : Nat) :
    rd (l.set i v) j = if j = i ∧ i < l.length then v else rd l j := by
  unfold rd
  simp only [List.getD_eq_getElem?_getD, List.getElem?_set]
  by_cases h : i = j
  · subst h
    by_cases h2 : i < l.length
    · simp [h2]
    · simp [h2, List.getElem?_eq_none (Nat.le_of_not_lt h2)]
  · have h' : ¬ j = i := fun e => h e.symm
    simp [h, h']

theorem length_memset (d : List Nat) (c n : Nat) : (memset d c n).length = d.length := by
  unfold memset
  induction n with
  | zero => simp
  | succ n ih => rw [List.range_succ, List.foldl_append]; simpa using ih

theorem rd_memset (d : List Nat) (c n j : Nat) :
    rd (memset d c n) j = if j < n ∧ j < d.length then c % 256 else rd d j := by
  induction n with
  | zero => simp [memset]
  | succ n ih =>
    have hl := length_memset d c n
    unfold memset at ih hl ⊢
    rw [List.range_succ, List.foldl_append]
    simp only [List.foldl_cons, List.foldl_nil, rd_set, ih, hl]
    split_ifs <;> first | rfl | omega

theorem length_memcpy (d : List Nat) (off : Nat) (src : List Nat) (n : Nat) :
    (memcpy d off src n).length = d.length := by
  unfold memcpy
  induction n with
  | zero => simp
  | succ n ih => rw [List.range_succ, List.foldl_append]; simpa using ih

theorem rd_memcpy (d : List Nat) (off : Nat) (src : List Nat) (n j : Nat) :
    rd (memcpy d off src n) j =
      if off ≤ j ∧ j < off + n ∧ j < d.length then rd src (j - off) else rd d j := by
  induction n with
  | zero =>
    simp only [memcpy, List.range_zero, List.foldl_nil]
    rw [if_neg (by omega)]
  | succ n ih =>
    have hl := length_memcpy d off src n
    unfold memcpy at ih hl ⊢
    rw [List.range_succ, List.foldl_append]
    simp only [List.foldl_cons, List.foldl_nil, rd_set, ih, hl]
    by_cases h1 : j = off + n
    · subst h1
      by_cases h2 : off + n < d.length
      · rw [if_pos ⟨rfl, h2⟩, if_pos ⟨by omega, by omega, h2⟩]
        congr 1
        omega
      · rw [if_neg (by omega), if_neg (by omega), if_neg (by omega)]
    · rw [if_neg (by omega)]
      by_cases h3 : off ≤ j ∧ j < off + n ∧ j < d.length
      · rw [if_pos h3, if_pos ⟨h3.1, by omega, h3.2.2⟩]
      · rw [if_neg h3, if_neg (by omega)]

theorem length_cmdcopyStep (clen : Nat) (m : List Nat) (i : Nat) :
    (cmdcopyStep clen m i).length = m.length := by
  unfold cmdcopyStep
  split
  · exact length_memcpy _ _ _ _
  · rfl

theorem cmdcopyLoop_succ (clen : Nat) (m : List Nat) (n : Nat) :
    cmdcopyLoop clen m (n + 1) = cmdcopyStep clen (cmdcopyLoop clen m n) n := by
  unfold cmdcopyLoop
  rw [List.range_succ, List.foldl_append]
  rfl

theorem length_cmdcopyLoop (clen : Nat) (m : List Nat) (n : Nat) :
    (cmdcopyLoop clen m n).length = m.length := by
  induction n with
  | zero => rfl
  | succ n ih => rw [cmdcopyLoop_succ, length_cmdcopyStep, ih]

theorem rd_cmdcopyStep (clen : Nat) (m : List Nat) (i j : Nat) (hi : i + 1 < m.length) :
    rd (cmdcopyStep clen m i) j =
      if rd m i = 0xca ∧ rd m (i + 1) = 0xfe then
        (if j = i then clen % 256 else if j = i + 1 then clen / 256 % 256 else rd m j)
      else rd m j := by
  unfold cmdcopyStep
  by_cases h : rd m i = 0xca ∧ rd m (i + 1) = 0xfe
  · rw [if_pos h, if_pos h, rd_memcpy]
    by_cases h1 : j = i
    · subst h1
      rw [if_pos ⟨by omega, by omega, by omega⟩, if_pos rfl, Nat.sub_self]
      rfl
    · by_cases h2 : j = i + 1
      · subst h2
        rw [if_pos ⟨by omega, by omega, by omega⟩, if_neg h1, if_pos rfl]
        have : i + 1 - i = 1 := by omega
        rw [this]
        rfl
      · rw [if_neg (by omega), if_neg h1, if_neg h2]
  · rw [if_neg h, if_neg h]

/-- The loop of `cmdcopy`, byte by byte: when the high byte of `clen` is not
0xCA and the loop stays inside the buffer, byte `j` afterwards is the low
byte of `clen` where the buffer held the marker at `j` before the loop, the
high byte where it held the marker at `j - 1`, and unchanged elsewhere. -/
theorem rd_cmdcopyLoop (clen : Nat) (m : List Nat) (hhi : clen / 256 % 256 ≠ 0xca) (n : Nat)
    (hn : n < m.length) (j : Nat) :
    rd (cmdcopyLoop clen m n) j =
      if j < n ∧ rd m j = 0xca ∧ rd m (j + 1) = 0xfe then clen % 256
      else if 0 < j ∧ j ≤ n ∧ rd m (j - 1) = 0xca ∧ rd m j = 0xfe then clen / 256 % 256
      else rd m j := by
  induction n generalizing j with
  | zero =>
    rw [if_neg (by omega), if_neg (by omega)]
    rfl
  | succ n ih =>
    have ih' := fun j => ih (by omega) j
    have hlen := length_cmdcopyLoop clen m n
    have hA : rd (cmdcopyLoop clen m n) n =
        if 0 < n ∧ rd m (n - 1) = 0xca ∧ rd m n = 0xfe then clen / 256 % 256 else rd m n := by
      rw [ih' n, if_neg (by omega)]
      by_cases hp : 0 < n ∧ rd m (n - 1) = 0xca ∧ rd m n = 0xfe
      · rw [if_pos ⟨hp.1, Nat.le_refl n, hp.2⟩, if_pos hp]
      · rw [if_neg (fun h => hp ⟨h.1, h.2.2⟩), if_neg hp]
    have hB : rd (cmdcopyLoop clen m n) (n + 1) = rd m (n + 1) := by
      rw [ih' (n + 1), if_neg (by omega), if_neg (by omega)]
    have hcond : (rd (cmdcopyLoop clen m n) n = 0xca ∧ rd (cmdcopyLoop clen m n) (n + 1) = 0xfe) ↔
        (rd m n = 0xca ∧ rd m (n + 1) = 0xfe) := by
      rw [hA, hB]
      by_cases hp : 0 < n ∧ rd m (n - 1) = 0xca ∧ rd m n = 0xfe
      · rw [if_pos hp]
        have h1 : rd m n ≠ 0xca := by rw [hp.2.2]; decide
        exact ⟨fun h => absurd h.1 hhi, fun h => absurd h.1 h1⟩
      · rw [if_neg hp]
    rw [cmdcopyLoop_succ, rd_cmdcopyStep _ _ _ _ (by omega), if_congr hcond rfl rfl, ih' j]
    rcases Nat.lt_trichotomy j n with hj | hj | hj
    · have h1 : j ≠ n := by omega
      have h2 : j ≠ n + 1 := by omega
      have h3 : j < n + 1 := by omega
      have h4 : j ≤ n := by omega
      have h5 : j ≤ n + 1 := by omega
      simp only [h1, h2, h3, h4, h5, hj, if_false, true_and, ite_self]
    · subst hj
      by_cases hM : rd m j = 0xca ∧ rd m (j + 1) = 0xfe
      · simp [hM]
      · simp [hM]
    · have h1 : j ≠ n := by omega
      have h3 : ¬ j < n + 1 := by omega
      have h4 : ¬ j ≤ n := by omega
      have h6 : ¬ j < n := by omega
      by_cases h2 : j = n + 1
      · subst h2
        by_cases hM : rd m n = 0xca ∧ rd m (n + 1) = 0xfe
        · simp [hM]
        · simp [hM]
      · have h5 : ¬ j ≤ n + 1 := by omega
        simp only [h1, h2, h3, h4, h5, h6, if_false, false_and, and_false, ite_self]

/-! ## Helper lemmas: the composed buffer -/

theorem cmdlen_ok_bounds {cmdline : List Nat} {S C clen : Nat} (hS : S ≤ C) (hC : C < 65535)
    (h : cmdlen cmdline S C = .ok clen) :
    clen = strlen cmdline + 1 ∧ clen ≤ C - S + 1 := by
  rw [cmdlen_eq cmdline hS (by omega)] at h
  split at h
  · cases h
  · simp only [Except.ok.injEq] at h
    rw [Nat.mod_eq_of_lt (by omega)] at h
    omega

theorem compose_eq_loop (mbr0 : List Nat) (C : Nat) (stub : List Nat) (A : Nat) (cmd : List Nat)
    (clen : Nat) :
    compose mbr0 C stub A cmd clen =
      cmdcopyLoop clen
        (memcpy (lbacopy (mlbcopy (memset mbr0 0 C) stub stub.length) stub.length A)
          (stub.length - 1) cmd clen) (stub.length - 1) := rfl

theorem length_beforeLoop (mbr0 stub cmd : List Nat) (C A clen : Nat) :
    (memcpy (lbacopy (mlbcopy (memset mbr0 0 C) stub stub.length) stub.length A)
      (stub.length - 1) cmd clen).length = mbr0.length := by
  simp only [lbacopy, mlbcopy, length_memcpy, length_memset]

theorem rd_beforeLoop (mbr0 stub cmd : List Nat) (C A clen j : Nat) (hS5 : 5 ≤ stub.length)
    (hSC : stub.length ≤ C) (hC : C ≤ mbr0.length) (hfit : stub.length - 1 + clen ≤ C) :
    rd (memcpy (lbacopy (mlbcopy (memset mbr0 0 C) stub stub.length) stub.length A)
        (stub.length - 1) cmd clen) j =
      if stub.length - 1 ≤ j ∧ j < stub.length - 1 + clen then rd cmd (j - (stub.length - 1))
      else if stub.length - 5 ≤ j ∧ j < stub.length - 1 then rd (le32 A) (j - (stub.length - 5))
      else if j < stub.length then rd stub j
      else if j < C then 0
      else rd mbr0 j := by
  simp only [lbacopy, mlbcopy, rd_memcpy, length_memcpy, length_memset, rd_memset]
  split_ifs <;> first | rfl | omega

theorem loop_at_marker {clen : Nat} {m : List Nat} (hhi : clen / 256 % 256 ≠ 0xca) {n : Nat}
    (hn : n < m.length) {j : Nat} (hj : j < n) (h1 : rd m j = 0xca) (h2 : rd m (j + 1) = 0xfe) :
    rd (cmdcopyLoop clen m n) j = clen % 256 ∧
    rd (cmdcopyLoop clen m n) (j + 1) = clen / 256 % 256 := by
  constructor
  · rw [rd_cmdcopyLoop clen m hhi n hn, if_pos ⟨hj, h1, h2⟩]
  · have h3 : rd m (j + 1) ≠ 0xca := by rw [h2]; decide
    rw [rd_cmdcopyLoop clen m hhi n hn, if_neg (fun h => h3 h.2.1),
      if_pos ⟨by omega, by omega, h1, h2⟩]

theorem loop_unchanged {clen : Nat} {m : List Nat} (hhi : clen / 256 % 256 ≠ 0xca) {n : Nat}
    (hn : n < m.length) {j : Nat} (h1 : rd m j ≠ 0xca) (h2 : rd m j ≠ 0xfe) :
    rd (cmdcopyLoop clen m n) j = rd m j := by
  rw [rd_cmdcopyLoop clen m hhi n hn, if_neg (fun h => h1 h.2.1), if_neg (fun h => h2 h.2.2.2)]

theorem head_readCString (m : List Nat) (off : Nat) (h : off < m.length) :
    (readCString m off).head? = some (rd m off) := by
  unfold readCString rd
  have hd : m.drop off = m[off] :: m.drop (off + 1) := List.drop_eq_getElem_cons h
  rw [hd, List.getD_eq_getElem?_getD, List.getElem?_eq_getElem h]
  rw [List.takeWhile_cons]
  by_cases h0 : m[off] = 0
  · simp only [h0, ne_eq, not_true_eq_false, decide_False, Bool.false_eq_true, if_false,
      List.nil_append, List.head?_cons, Option.getD_some]
  · simp only [h0, ne_eq, not_false_eq_true, decide_True, if_true, List.cons_append,
      List.head?_cons, Option.getD_some]

/-! ## Boot-record composition (C1, C4, C5) -/

/-- C1 fails on the code: for every loader stub of length S (6 ≤ S ≤ C, C one
of 446, 510) and every accepted command line, the boot record composed for
the address 0xFECA holds at offset S - 5 not 0xFECA but the command-line
length: the address bytes CA FE are the marker of `cmdcopy`, whose scan covers
the address field. -/
theorem lba_overwritten_by_marker_scan (mbr0 stub cmdline : List Nat) (C clen : Nat)
    (hC : C = 446 ∨ C = 510) (hlen : mbr0.length = 510) (hS : 6 ≤ stub.length)
    (hSC : stub.length ≤ C) (hcmd : cmdlen cmdline stub.length C = .ok clen) :
    load32 (compose mbr0 C stub 0xFECA cmdline clen) (stub.length - 5) = clen ∧
    load32 (compose mbr0 C stub 0xFECA cmdline clen) (stub.length - 5) ≠ 0xFECA := by
  obtain ⟨hclen, hmax⟩ := cmdlen_ok_bounds hSC (by omega) hcmd
  have hhi : clen / 256 % 256 ≠ 0xca := by omega
  obtain ⟨k, hk⟩ : ∃ k, stub.length = k + 6 := ⟨stub.length - 6, by omega⟩
  have hpre := fun j => rd_beforeLoop mbr0 stub cmdline C 0xFECA clen j (by omega) hSC (by omega)
    (by omega)
  have hn : stub.length - 1 <
      (memcpy (lbacopy (mlbcopy (memset mbr0 0 C) stub stub.length) stub.length 0xFECA)
        (stub.length - 1) cmdline clen).length := by
    rw [length_beforeLoop]
    omega
  have p0 := hpre (k + 1)
  rw [if_neg (by omega), if_pos (by omega), show k + 1 - (stub.length - 5) = 0 by omega] at p0
  have p1 := hpre (k + 1 + 1)
  rw [if_neg (by omega), if_pos (by omega), show k + 1 + 1 - (stub.length - 5) = 1 by omega] at p1
  have p2 := hpre (k + 1 + 2)
  rw [if_neg (by omega), if_pos (by omega), show k + 1 + 2 - (stub.length - 5) = 2 by omega] at p2
  have p3 := hpre (k + 1 + 3)
  rw [if_neg (by omega), if_pos (by omega), show k + 1 + 3 - (stub.length - 5) = 3 by omega] at p3
  have b01 := loop_at_marker hhi hn (show k + 1 < stub.length - 1 by omega) p0 p1
  have b2 := loop_unchanged hhi hn (j := k + 1 + 2) (by rw [p2]; decide) (by rw [p2]; decide)
  have b3 := loop_unchanged hhi hn (j := k + 1 + 3) (by rw [p3]; decide) (by rw [p3]; decide)
  rw [p2] at b2
  rw [p3] at b3
  have hval : load32 (compose mbr0 C stub 0xFECA cmdline clen) (stub.length - 5) = clen := by
    rw [show stub.length - 5 = k + 1 by omega]
    unfold load32
    rw [compose_eq_loop, b01.1, b01.2, b2, b3]
    simp only [rd, le32, List.getD_cons_zero, List.getD_cons_succ]
    omega
  refine ⟨hval, ?_⟩
  rw [hval]
  omega

theorem lba_overwritten_by_marker_scan_witness :
    cmdlen (ascii "root=/dev/sda1") sampleStub.length 446 = .ok 15 ∧
    load32 (compose (List.replicate 510 0) 446 sampleStub 0xFECA (ascii "root=/dev/sda1") 15)
      (sampleStub.length - 5) = 15 ∧
    load32 (compose (List.replicate 510 0) 446 sampleStub 0xFECA (ascii "root=/dev/sda1") 15)
      (sampleStub.length - 5) ≠ 0xFECA :=
  ⟨by decide,
   lba_overwritten_by_marker_scan (List.replicate 510 0) sampleStub (ascii "root=/dev/sda1") 446 15
     (Or.inl rfl) (List.length_replicate 510 0) (by decide) (by decide) (by decide)⟩

/-- C4 fails on the code: for every loader stub of length S (6 ≤ S ≤ C) and
every accepted command line whose first byte is 0xFE, the boot record composed
for the address 0xCA000000 holds at offset S - 1 the high byte of the
command-line length instead of 0xFE, so the string read back at S - 1 is not
the command line: the top address byte CA and the first command-line byte FE
form the marker of `cmdcopy` at the last index of its scan. -/
theorem cmdline_overwritten_by_marker_scan (mbr0 stub rest : List Nat) (C clen : Nat)
    (hC : C = 446 ∨ C = 510) (hlen : mbr0.length = 510) (hS : 6 ≤ stub.length)
    (hSC : stub.length ≤ C) (hcmd : cmdlen (0xfe :: rest) stub.length C = .ok clen) :
    rd (compose mbr0 C stub 0xCA000000 (0xfe :: rest) clen) (stub.length - 1)
      = clen / 256 % 256 ∧
    readCString (compose mbr0 C stub 0xCA000000 (0xfe :: rest) clen) (stub.length - 1)
      ≠ withTerminator (0xfe :: rest) := by
  obtain ⟨hclen, hmax⟩ := cmdlen_ok_bounds hSC (by omega) hcmd
  have hhi : clen / 256 % 256 ≠ 0xca := by omega
  obtain ⟨k, hk⟩ : ∃ k, stub.length = k + 6 := ⟨stub.length - 6, by omega⟩
  have hpre := fun j => rd_beforeLoop mbr0 stub (0xfe :: rest) C 0xCA000000 clen j (by omega) hSC
    (by omega) (by omega)
  have hn : stub.length - 1 <
      (memcpy (lbacopy (mlbcopy (memset mbr0 0 C) stub stub.length) stub.length 0xCA000000)
        (stub.length - 1) (0xfe :: rest) clen).length := by
    rw [length_beforeLoop]
    omega
  have p0 := hpre (k + 4)
  rw [if_neg (by omega), if_pos (by omega), show k + 4 - (stub.length - 5) = 3 by omega] at p0
  have p1 := hpre (k + 4 + 1)
  rw [if_pos (by omega), show k + 4 + 1 - (stub.length - 1) = 0 by omega] at p1
  have b := (loop_at_marker hhi hn (show k + 4 < stub.length - 1 by omega) p0 p1).2
  have hval : rd (compose mbr0 C stub 0xCA000000 (0xfe :: rest) clen) (stub.length - 1)
      = clen / 256 % 256 := by
    rw [show stub.length - 1 = k + 4 + 1 by omega, compose_eq_loop]
    exact b
  refine ⟨hval, ?_⟩
  intro heq
  have hhead := head_readCString (compose mbr0 C stub 0xCA000000 (0xfe :: rest) clen)
    (stub.length - 1) (by rw [compose_eq_loop, length_cmdcopyLoop, length_beforeLoop]; omega)
  rw [heq, hval] at hhead
  simp only [withTerminator, List.takeWhile_cons, ne_eq, Nat.reduceEqDiff, not_false_eq_true,
    decide_True, if_true, List.cons_append, List.head?_cons, Option.some.injEq] at hhead
  omega

theorem cmdline_overwritten_by_marker_scan_witness :
    cmdlen (0xfe :: ascii "oot=/dev/sda1") sampleStub.length 446 = .ok 15 ∧
    rd (compose (List.replicate 510 0) 446 sampleStub 0xCA000000
      (0xfe :: ascii "oot=/dev/sda1") 15) (sampleStub.length - 1) = 15 / 256 % 256 ∧
    readCString (compose (List.replicate 510 0) 446 sampleStub 0xCA000000
      (0xfe :: ascii "oot=/dev/sda1") 15) (sampleStub.length - 1)
      ≠ withTerminator (0xfe :: ascii "oot=/dev/sda1") :=
  ⟨by decide,
   cmdline_overwritten_by_marker_scan (List.replicate 510 0) sampleStub (ascii "oot=/dev/sda1")
     446 15 (Or.inl rfl) (List.length_replicate 510 0) (by decide) (by decide) (by decide)⟩

set_option maxRecDepth 1000000 in
/-- C5, as stated, fails: the stub `markerInAddressStub` of length 8 holds the
marker at position 3 < S - 1, inside its address placeholder; `lbacopy` stores
the address 2048 there, and the composed boot record holds 0x00, 0x08 at
positions 3, 4 instead of the command-line length 15. -/
theorem marker_in_address_field_counterexample :
    rd markerInAddressStub 3 = 0xca ∧ rd markerInAddressStub 4 = 0xfe ∧
    3 < markerInAddressStub.length - 1 ∧
    cmdlen (ascii "root=/dev/sda1") markerInAddressStub.length 446 = .ok 15 ∧
    rd (compose (List.replicate 510 0) 446 markerInAddressStub 2048
      (ascii "root=/dev/sda1") 15) 3 = 0x00 ∧
    rd (compose (List.replicate 510 0) 446 markerInAddressStub 2048
      (ascii "root=/dev/sda1") 15) 4 = 0x08 ∧
    ¬ (rd (compose (List.replicate 510 0) 446 markerInAddressStub 2048
        (ascii "root=/dev/sda1") 15) 3 = 15 % 256 ∧
      rd (compose (List.replicate 510 0) 446 markerInAddressStub 2048
        (ascii "root=/dev/sda1") 15) 4 = 15 / 256 % 256) := by
  decide

/-- C5, amended: for every loader stub of length S ≤ C, every address and every
accepted command line with length clen (terminator included), every position
i at which the stub holds the marker 0xCA, 0xFE wholly before the address
field (i + 2 ≤ S - 5) holds, in the composed boot record, the low byte of
clen at i and its high byte at i + 1; all such occurrences, however many,
receive this same value. -/
theorem marker_patched (mbr0 stub cmdline : List Nat) (C A clen i : Nat)
    (hC : C = 446 ∨ C = 510) (hlen : mbr0.length = 510) (hSC : stub.length ≤ C)
    (hcmd : cmdlen cmdline stub.length C = .ok clen) (hi : i + 2 ≤ stub.length - 5)
    (hm0 : rd stub i = 0xca) (hm1 : rd stub (i + 1) = 0xfe) :
    rd (compose mbr0 C stub A cmdline clen) i = clen % 256 ∧
    rd (compose mbr0 C stub A cmdline clen) (i + 1) = clen / 256 % 256 := by
  obtain ⟨hclen, hmax⟩ := cmdlen_ok_bounds hSC (by omega) hcmd
  have hhi : clen / 256 % 256 ≠ 0xca := by omega
  have hpre := fun j => rd_beforeLoop mbr0 stub cmdline C A clen j (by omega) hSC (by omega)
    (by omega)
  have hn : stub.length - 1 <
      (memcpy (lbacopy (mlbcopy (memset mbr0 0 C) stub stub.length) stub.length A)
        (stub.length - 1) cmdline clen).length := by
    rw [length_beforeLoop]
    omega
  have p0 := hpre i
  rw [if_neg (by omega), if_neg (by omega), if_pos (by omega), hm0] at p0
  have p1 := hpre (i + 1)
  rw [if_neg (by omega), if_neg (by omega), if_pos (by omega), hm1] at p1
  rw [compose_eq_loop]
  exact loop_at_marker hhi hn (by omega) p0 p1

theorem marker_patched_witness :
    cmdlen (ascii "root=/dev/sda1") threeMarkerStub.length 446 = .ok 15 ∧
    (rd (compose (List.replicate 510 0) 446 threeMarkerStub 2048 (ascii "root=/dev/sda1") 15) 3
      = 15 % 256 ∧
     rd (compose (List.replicate 510 0) 446 threeMarkerStub 2048 (ascii "root=/dev/sda1") 15)
      (3 + 1) = 15 / 256 % 256) :=
  ⟨by decide,
   marker_patched (List.replicate 510 0) threeMarkerStub (ascii "root=/dev/sda1") 446 2048 15 3
     (Or.inl rfl) (List.length_replicate 510 0) (by decide) (by decide) (by decide) (by decide)
     (by decide)⟩

/-! ## Writing the boot record (C11, C12, C13) -/

theorem rd_take (l : List Nat) (n j : Nat) (h : j < n) : rd (l.take n) j = rd l j := by
  unfold rd
  simp only [List.getD_eq_getElem?_getD, List.getElem?_take_of_lt h]

theorem rd_mbrwrite (target mbr : List Nat) (hm : 446 ≤ mbr.length) (j : Nat) :
    rd (mbrwrite target mbr) j =
      if j < 446 then rd mbr j
      else if j = 510 then 0x55
      else if j = 511 then 0xaa
      else rd target j := by
  have hl : (mbr.take 446).length = 446 := by
    rw [List.length_take]
    omega
  unfold mbrwrite
  simp only [rd_fileWrite, hl, le16, List.length_cons, List.length_nil]
  by_cases h1 : j < 446
  · rw [if_neg (by omega), if_pos (by omega), if_pos h1, Nat.sub_zero, rd_take _ _ _ h1]
  · rw [if_neg h1]
    by_cases h2 : j = 510
    · subst h2
      rw [if_pos (by omega), if_pos rfl]
      rfl
    · by_cases h3 : j = 511
      · subst h3
        rw [if_pos (by omega), if_neg h2, if_pos rfl]
        rfl
      · rw [if_neg (by omega), if_neg (by omega), if_neg h2, if_neg h3]

theorem length_mbrwrite (target mbr : List Nat) (hm : 446 ≤ mbr.length) :
    (mbrwrite target mbr).length = max target.length 512 := by
  have hl : (mbr.take 446).length = 446 := by
    rw [List.length_take]
    omega
  unfold mbrwrite
  simp only [length_fileWrite, hl, le16, List.length_cons, List.length_nil]
  omega

/-- C11: for every target of at least 512 bytes and every buffer of at least
446 bytes (so every buffer `main` composes), after a successful `mbrwrite` the
bytes [0, 446) of the target are those of the buffer, the bytes [446, 510)
are what they were before the write, every byte at an offset of 512 or more
is unchanged, and the target has kept its length. -/
theorem mbrwrite_preserves_partition_table (target mbr : List Nat) (ht : 512 ≤ target.length)
    (hm : 446 ≤ mbr.length) :
    (∀ j, j < 446 → rd (mbrwrite target mbr) j = rd mbr j) ∧
    (∀ j, 446 ≤ j → j < 510 → rd (mbrwrite target mbr) j = rd target j) ∧
    (∀ j, 512 ≤ j → rd (mbrwrite target mbr) j = rd target j) ∧
    (mbrwrite target mbr).length = target.length := by
  have hlen : (mbrwrite target mbr).length = target.length := by
    rw [length_mbrwrite target mbr hm]
    omega
  have h1 : ∀ j, j < 446 → rd (mbrwrite target mbr) j = rd mbr j := by
    intro j hj
    rw [rd_mbrwrite target mbr hm, if_pos hj]
  have h2 : ∀ j, 446 ≤ j → j < 510 → rd (mbrwrite target mbr) j = rd target j := by
    intro j hj hj2
    rw [rd_mbrwrite target mbr hm, if_neg (by omega), if_neg (by omega), if_neg (by omega)]
  have h3 : ∀ j, 512 ≤ j → rd (mbrwrite target mbr) j = rd target j := by
    intro j hj
    rw [rd_mbrwrite target mbr hm, if_neg (by omega), if_neg (by omega), if_neg (by omega)]
  exact ⟨h1, h2, h3, hlen⟩

theorem mbrwrite_preserves_partition_table_witness :
    512 ≤ (List.replicate 512 0x11).length ∧ 446 ≤ (List.replicate 510 0x22).length ∧
    rd (mbrwrite (List.replicate 512 0x11) (List.replicate 510 0x22)) 0 =
      rd (List.replicate 510 0x22) 0 ∧
    rd (mbrwrite (List.replicate 512 0x11) (List.replicate 510 0x22)) 446 =
      rd (List.replicate 512 0x11) 446 ∧
    rd (mbrwrite (List.replicate 512 0x11) (List.replicate 510 0x22)) 509 =
      rd (List.replicate 512 0x11) 509 :=
  ⟨(List.length_replicate 512 0x11).ge, by rw [List.length_replicate]; decide,
   (mbrwrite_preserves_partition_table (List.replicate 512 0x11) (List.replicate 510 0x22)
      (List.length_replicate 512 0x11).ge (by rw [List.length_replicate]; decide)).1 0 (by decide),
   (mbrwrite_preserves_partition_table (List.replicate 512 0x11) (List.replicate 510 0x22)
      (List.length_replicate 512 0x11).ge (by rw [List.length_replicate]; decide)).2.1 446
      (by decide) (by decide),
   (mbrwrite_preserves_partition_table (List.replicate 512 0x11) (List.replicate 510 0x22)
      (List.length_replicate 512 0x11).ge (by rw [List.length_replicate]; decide)).2.1 509
      (by decide) (by decide)⟩

theorem main_of_check_error {vbr : Bool} {kernel : List Nat} {fe_flags fe_physical : Nat}
    {mlb_bin mbr0 cmdline target : List Nat} {e : Failure}
    (hk : check_version kernel = .error e) :
    main vbr kernel fe_flags fe_physical mlb_bin mbr0 cmdline target =
      ⟨.error e, [], false, target⟩ := by
  unfold main
  simp only [hk]

theorem main_of_cmdlen_error {vbr : Bool} {kernel : List Nat} {fe_flags fe_physical : Nat}
    {mlb_bin mbr0 cmdline target : List Nat} {e : Failure}
    (hk : check_version kernel = .ok ())
    (hc : cmdlen cmdline mlb_bin.length (mbrLen vbr) = .error e) :
    main vbr kernel fe_flags fe_physical mlb_bin mbr0 cmdline target =
      ⟨.error e, [], false, target⟩ := by
  unfold mbrLen at hc
  unfold main
  simp only [hk, hc]

theorem main_of_lba_error {vbr : Bool} {kernel : List Nat} {fe_flags fe_physical : Nat}
    {mlb_bin mbr0 cmdline target : List Nat} {clen : Nat} {ws : List Warning} {e : Failure}
    (hk : check_version kernel = .ok ())
    (hc : cmdlen cmdline mlb_bin.length (mbrLen vbr) = .ok clen)
    (hl : lba fe_flags fe_physical = (ws, .error e)) :
    main vbr kernel fe_flags fe_physical mlb_bin mbr0 cmdline target =
      ⟨.error e, ws, false, target⟩ := by
  unfold mbrLen at hc
  unfold main
  simp only [hk, hc, hl]

theorem main_of_ok {vbr : Bool} {kernel : List Nat} {fe_flags fe_physical : Nat}
    {mlb_bin mbr0 cmdline target : List Nat} {clen A : Nat} {ws : List Warning}
    (hk : check_version kernel = .ok ())
    (hc : cmdlen cmdline mlb_bin.length (mbrLen vbr) = .ok clen)
    (hl : lba fe_flags fe_physical = (ws, .ok A)) :
    main vbr kernel fe_flags fe_physical mlb_bin mbr0 cmdline target =
      ⟨.ok (), ws, true, mbrwrite target (compose mbr0 (mbrLen vbr) mlb_bin A cmdline clen)⟩ := by
  unfold mbrLen at hc ⊢
  unfold main
  simp only [hk, hc, hl]

/-- C13: whenever `check_version` rejects the kernel header, `cmdlen` rejects the
command line or `lba` rejects the extent, the program ends with a non-zero
exit status without calling `mbrwrite`, and the target holds exactly what it
held before; the target can differ from its prior contents only when all
three checks passed. -/
theorem main_no_write_on_rejection (vbr : Bool) (kernel : List Nat) (fe_flags fe_physical : Nat)
    (mlb_bin mbr0 cmdline target : List Nat) :
    ((check_version kernel ≠ .ok () ∨
        (∀ v, cmdlen cmdline mlb_bin.length (mbrLen vbr) ≠ .ok v) ∨
        (∀ v, (lba fe_flags fe_physical).2 ≠ .ok v)) →
      (main vbr kernel fe_flags fe_physical mlb_bin mbr0 cmdline target).exitStatus ≠ 0 ∧
      (main vbr kernel fe_flags fe_physical mlb_bin mbr0 cmdline target).mbrwriteCalled = false ∧
      (main vbr kernel fe_flags fe_physical mlb_bin mbr0 cmdline target).target = target) ∧
    ((main vbr kernel fe_flags fe_physical mlb_bin mbr0 cmdline target).target ≠ target →
      check_version kernel = .ok () ∧
      (∃ v, cmdlen cmdline mlb_bin.length (mbrLen vbr) = .ok v) ∧
      (∃ v, (lba fe_flags fe_physical).2 = .ok v)) := by
  cases hk : check_version kernel with
  | error e =>
    rw [main_of_check_error hk]
    simp [Run.exitStatus]
  | ok u =>
    cases hc : cmdlen cmdline mlb_bin.length (mbrLen vbr) with
    | error e =>
      rw [main_of_cmdlen_error hk hc]
      simp [Run.exitStatus]
    | ok clen =>
      rcases hl : lba fe_flags fe_physical with ⟨ws, r⟩
      cases r with
      | error e =>
        rw [main_of_lba_error hk hc hl]
        simp [Run.exitStatus]
      | ok A =>
        rw [main_of_ok hk hc hl]
        simp [Run.exitStatus]

set_option maxRecDepth 100000 in
theorem main_no_write_on_rejection_witness :
    check_version (sampleHeader 0x02 0x03 0x01) ≠ .ok () ∧
    (main false (sampleHeader 0x02 0x03 0x01) FIEMAP_EXTENT_LAST 1048576 sampleStub
      (List.replicate 510 0) (ascii "root=/dev/sda1") (List.replicate 512 0x11)).exitStatus ≠ 0 ∧
    (main false (sampleHeader 0x02 0x03 0x01) FIEMAP_EXTENT_LAST 1048576 sampleStub
      (List.replicate 510 0) (ascii "root=/dev/sda1") (List.replicate 512 0x11)).mbrwriteCalled
        = false ∧
    (main false (sampleHeader 0x02 0x03 0x01) FIEMAP_EXTENT_LAST 1048576 sampleStub
      (List.replicate 510 0) (ascii "root=/dev/sda1") (List.replicate 512 0x11)).target
        = List.replicate 512 0x11 :=
  ⟨by decide,
   (main_no_write_on_rejection false (sampleHeader 0x02 0x03 0x01) FIEMAP_EXTENT_LAST 1048576
      sampleStub (List.replicate 510 0) (ascii "root=/dev/sda1") (List.replicate 512 0x11)).1
      (Or.inl (by decide))⟩

/-- C12 fails on the code: in a successful run with `-vbr` (capacity 510) on a
target of at least 512 bytes, every target byte at an offset j in [446, 510)
is what it was before the run, although the composed buffer holds there a
byte of the accepted command line (or its terminating zero): `mbrwrite`
writes 446 bytes of the buffer whatever the capacity. -/
theorem vbr_payload_not_written (kernel : List Nat) (fe_flags fe_physical : Nat)
    (mlb_bin mbr0 cmdline target : List Nat) (clen A : Nat) (ws : List Warning)
    (_ht : 512 ≤ target.length) (hm : mbr0.length = 510) (hS : 5 ≤ mlb_bin.length)
    (hSC : mlb_bin.length ≤ 510) (hk : check_version kernel = .ok ())
    (hc : cmdlen cmdline mlb_bin.length 510 = .ok clen)
    (hl : lba fe_flags fe_physical = (ws, .ok A))
    (j : Nat) (hj : 446 ≤ j) (hjS : mlb_bin.length ≤ j) (hj2 : j < mlb_bin.length - 1 + clen) :
    (main true kernel fe_flags fe_physical mlb_bin mbr0 cmdline target).exitStatus = 0 ∧
    rd (main true kernel fe_flags fe_physical mlb_bin mbr0 cmdline target).target j
      = rd target j ∧
    rd (compose mbr0 510 mlb_bin A cmdline clen) j = rd cmdline (j - (mlb_bin.length - 1)) := by
  obtain ⟨hclen, hmax⟩ := cmdlen_ok_bounds hSC (by omega) hc
  have hhi : clen / 256 % 256 ≠ 0xca := by omega
  have hmain : main true kernel fe_flags fe_physical mlb_bin mbr0 cmdline target =
      ⟨.ok (), ws, true, mbrwrite target (compose mbr0 510 mlb_bin A cmdline clen)⟩ :=
    main_of_ok hk hc hl
  have hcl : (compose mbr0 510 mlb_bin A cmdline clen).length = 510 := by
    rw [compose_eq_loop, length_cmdcopyLoop, length_beforeLoop, hm]
  refine ⟨?_, ?_, ?_⟩
  · rw [hmain]
    rfl
  · rw [hmain]
    show rd (mbrwrite target (compose mbr0 510 mlb_bin A cmdline clen)) j = rd target j
    rw [rd_mbrwrite _ _ (by omega), if_neg (by omega), if_neg (by omega), if_neg (by omega)]
  · rw [compose_eq_loop, rd_cmdcopyLoop _ _ hhi _ (by rw [length_beforeLoop]; omega),
      if_neg (by omega), if_neg (by omega),
      rd_beforeLoop mbr0 mlb_bin cmdline 510 A clen j hS hSC (by omega) (by omega),
      if_pos (by omega)]

set_option maxRecDepth 1000000 in
theorem vbr_payload_not_written_witness :
    cmdlen (List.replicate 450 0x61) sampleStub.length 510 = .ok 451 ∧
    rd (List.replicate 512 0x11) 446 = 0x11 ∧
    rd (List.replicate 450 0x61) (446 - (sampleStub.length - 1)) = 0x61 ∧
    ((main true (sampleHeader 0x02 0x04 0x01) FIEMAP_EXTENT_LAST 1048576 sampleStub
        (List.replicate 510 0) (List.replicate 450 0x61) (List.replicate 512 0x11)).exitStatus
        = 0 ∧
      rd (main true (sampleHeader 0x02 0x04 0x01) FIEMAP_EXTENT_LAST 1048576 sampleStub
        (List.replicate 510 0) (List.replicate 450 0x61) (List.replicate 512 0x11)).target 446
        = rd (List.replicate 512 0x11) 446 ∧
      rd (compose (List.replicate 510 0) 510 sampleStub 2048 (List.replicate 450 0x61) 451) 446
        = rd (List.replicate 450 0x61) (446 - (sampleStub.length - 1))) :=
  ⟨by decide, by decide, by decide,
   vbr_payload_not_written (sampleHeader 0x02 0x04 0x01) FIEMAP_EXTENT_LAST 1048576 sampleStub
     (List.replicate 510 0) (List.replicate 450 0x61) (List.replicate 512 0x11) 451 2048 []
     (List.length_replicate 512 0x11).ge (List.length_replicate 510 0) (by decide) (by decide)
     (by decide) (by decide) (by decide) 446 (by decide) (by decide) (by decide)⟩

/-! ## Boot-record composition (C14, C15, C16, C17, C18) -/

theorem mem_memcpyIndices (off n j : Nat) : j ∈ memcpyIndices off n ↔ off ≤ j ∧ j < off + n := by
  unfold memcpyIndices
  simp only [List.mem_map, List.mem_range]
  constructor
  · rintro ⟨k, hk, rfl⟩
    omega
  · intro h
    exact ⟨j - off, by omega, by omega⟩

theorem mem_cmdcopyIndices (mlblen clen j : Nat) :
    j ∈ cmdcopyIndices mlblen clen ↔
      (mlblen - 1 ≤ j ∧ j < mlblen - 1 + clen) ∨ ∃ i, i < mlblen - 1 ∧ (j = i ∨ j = i + 1) := by
  unfold cmdcopyIndices
  simp only [List.mem_append, List.mem_flatMap, List.mem_range, mem_memcpyIndices, List.mem_cons,
    List.mem_singleton, List.not_mem_nil, or_false]
  constructor
  · rintro (h | ⟨i, hi, h⟩)
    · exact Or.inl h
    · exact Or.inr ⟨i, hi, by omega⟩
  · rintro (h | ⟨i, hi, h⟩)
    · exact Or.inl h
    · exact Or.inr ⟨i, hi, Or.inl (by omega)⟩

/-- C14: for a stub length S with 6 ≤ S ≤ C and C one of 446, 510, whenever
`cmdlen` accepts a command line and returns clen, clen is the natural length
plus one, at most C - S + 1 and below 2^16 (no wraparound), and every index
that `lbacopy` and `cmdcopy` write or read lies in [0, C): the address field
[S - 5, S - 1), the command-line region [S - 1, S - 1 + clen) and the bytes
i, i + 1 of the marker scan for i < S - 1. -/
theorem composition_stays_in_buffer (cmdline : List Nat) (S C clen : Nat) (hS : 6 ≤ S)
    (hSC : S ≤ C) (hC : C = 446 ∨ C = 510) (hc : cmdlen cmdline S C = .ok clen) :
    clen = strlen cmdline + 1 ∧ clen ≤ C - S + 1 ∧ clen < 2 ^ 16 ∧
    (∀ j, j ∈ lbacopyIndices S ↔ S - 5 ≤ j ∧ j < S - 1) ∧
    (∀ j ∈ lbacopyIndices S, j < C) ∧
    (∀ j, S - 1 ≤ j → j < S - 1 + clen → j ∈ cmdcopyIndices S clen) ∧
    (∀ i, i < S - 1 → i ∈ cmdcopyIndices S clen ∧ i + 1 ∈ cmdcopyIndices S clen) ∧
    (∀ j ∈ cmdcopyIndices S clen, j < C) := by
  obtain ⟨hclen, hmax⟩ := cmdlen_ok_bounds hSC (by omega) hc
  refine ⟨hclen, hmax, by omega, ?_, ?_, ?_, ?_, ?_⟩
  · intro j
    unfold lbacopyIndices
    rw [mem_memcpyIndices]
    omega
  · intro j hj
    unfold lbacopyIndices at hj
    rw [mem_memcpyIndices] at hj
    omega
  · intro j h1 h2
    rw [mem_cmdcopyIndices]
    exact Or.inl ⟨h1, h2⟩
  · intro i hi
    rw [mem_cmdcopyIndices, mem_cmdcopyIndices]
    exact ⟨Or.inr ⟨i, hi, Or.inl rfl⟩, Or.inr ⟨i, hi, Or.inr rfl⟩⟩
  · intro j hj
    rw [mem_cmdcopyIndices] at hj
    rcases hj with h | ⟨i, hi, h⟩
    · omega
    · omega

theorem composition_stays_in_buffer_witness :
    cmdlen (ascii "root=/dev/sda1") 400 446 = .ok 15 ∧
    (15 = strlen (ascii "root=/dev/sda1") + 1 ∧ 15 ≤ 446 - 400 + 1 ∧ 15 < 2 ^ 16 ∧
    (∀ j, j ∈ lbacopyIndices 400 ↔ 400 - 5 ≤ j ∧ j < 400 - 1) ∧
    (∀ j ∈ lbacopyIndices 400, j < 446) ∧
    (∀ j, 400 - 1 ≤ j → j < 400 - 1 + 15 → j ∈ cmdcopyIndices 400 15) ∧
    (∀ i, i < 400 - 1 → i ∈ cmdcopyIndices 400 15 ∧ i + 1 ∈ cmdcopyIndices 400 15) ∧
    (∀ j ∈ cmdcopyIndices 400 15, j < 446)) :=
  ⟨by decide,
   composition_stays_in_buffer (ascii "root=/dev/sda1") 400 446 15 (by decide) (by decide)
     (Or.inl rfl) (by decide)⟩

/-- C15: for every stub of length S with 5 ≤ S ≤ C (the lengths for which the
address field lies inside the array), every address and every accepted
command line of length clen (terminator included), every byte of the
composed buffer at an offset in [S - 1 + clen, C) is zero. -/
theorem zero_padding (mbr0 stub cmdline : List Nat) (C A clen j : Nat)
    (hC : C = 446 ∨ C = 510) (hm : mbr0.length = 510) (hS : 5 ≤ stub.length)
    (hSC : stub.length ≤ C) (hc : cmdlen cmdline stub.length C = .ok clen)
    (hj1 : stub.length - 1 + clen ≤ j) (hj2 : j < C) :
    rd (compose mbr0 C stub A cmdline clen) j = 0 := by
  obtain ⟨hclen, hmax⟩ := cmdlen_ok_bounds hSC (by omega) hc
  have hhi : clen / 256 % 256 ≠ 0xca := by omega
  rw [compose_eq_loop, rd_cmdcopyLoop _ _ hhi _ (by rw [length_beforeLoop]; omega),
    if_neg (by omega), if_neg (by omega),
    rd_beforeLoop mbr0 stub cmdline C A clen j hS hSC (by omega) (by omega),
    if_neg (by omega), if_neg (by omega), if_neg (by omega), if_pos hj2]

theorem zero_padding_witness :
    cmdlen (ascii "root=/dev/sda1") sampleStub.length 446 = .ok 15 ∧
    rd (compose (List.replicate 510 0x77) 446 sampleStub 2048 (ascii "root=/dev/sda1") 15) 22
      = 0 :=
  ⟨by decide,
   zero_padding (List.replicate 510 0x77) sampleStub (ascii "root=/dev/sda1") 446 2048 15 22
     (Or.inl rfl) (List.length_replicate 510 0x77) (by decide) (by decide) (by decide)
     (by decide) (by decide)⟩

/-- C17: for every stub of length S ≥ 6, every accepted command line and every
32-bit address A none of whose four little-endian bytes is 0xCA or 0xFE, the
composed boot record holds A, little-endian, in the 4 bytes at offset S - 5:
the marker scan leaves the address field intact. -/
theorem address_survives_marker_scan (mbr0 stub cmdline : List Nat) (C A clen : Nat)
    (hC : C = 446 ∨ C = 510) (hm : mbr0.length = 510) (hS : 6 ≤ stub.length)
    (hSC : stub.length ≤ C) (hc : cmdlen cmdline stub.length C = .ok clen)
    (hA : A < 2 ^ 32) (hb : ∀ b ∈ le32 A, b ≠ 0xca ∧ b ≠ 0xfe) :
    load32 (compose mbr0 C stub A cmdline clen) (stub.length - 5) = A ∧
    ∀ k, k < 4 → rd (compose mbr0 C stub A cmdline clen) (stub.length - 5 + k) = rd (le32 A) k := by
  obtain ⟨hclen, hmax⟩ := cmdlen_ok_bounds hSC (by omega) hc
  have hhi : clen / 256 % 256 ≠ 0xca := by omega
  have hn : stub.length - 1 <
      (memcpy (lbacopy (mlbcopy (memset mbr0 0 C) stub stub.length) stub.length A)
        (stub.length - 1) cmdline clen).length := by
    rw [length_beforeLoop]
    omega
  have hmem : ∀ k, k < 4 → rd (le32 A) k ∈ le32 A := by
    intro k hk
    have h4 : k = 0 ∨ k = 1 ∨ k = 2 ∨ k = 3 := by omega
    rcases h4 with rfl | rfl | rfl | rfl <;> simp [rd, le32]
  have hbyte : ∀ k, k < 4 →
      rd (compose mbr0 C stub A cmdline clen) (stub.length - 5 + k) = rd (le32 A) k := by
    intro k hk
    have hp := rd_beforeLoop mbr0 stub cmdline C A clen (stub.length - 5 + k) (by omega) hSC
      (by omega) (by omega)
    rw [if_neg (by omega), if_pos (by omega),
      show stub.length - 5 + k - (stub.length - 5) = k by omega] at hp
    have hne := hb _ (hmem k hk)
    rw [compose_eq_loop, loop_unchanged hhi hn (by rw [hp]; exact hne.1) (by rw [hp]; exact hne.2),
      hp]
  refine ⟨?_, hbyte⟩
  have h0 := hbyte 0 (by omega)
  have h1 := hbyte 1 (by omega)
  have h2 := hbyte 2 (by omega)
  have h3 := hbyte 3 (by omega)
  rw [Nat.add_zero] at h0
  unfold load32
  rw [h0, h1, h2, h3]
  simp only [rd, le32, List.getD_cons_zero, List.getD_cons_succ]
  omega

theorem address_survives_marker_scan_witness :
    cmdlen (ascii "root=/dev/sda1") sampleStub.length 446 = .ok 15 ∧
    load32 (compose (List.replicate 510 0) 446 sampleStub 2048 (ascii "root=/dev/sda1") 15)
      (sampleStub.length - 5) = 2048 :=
  ⟨by decide,
   (address_survives_marker_scan (List.replicate 510 0) sampleStub (ascii "root=/dev/sda1") 446
     2048 15 (Or.inl rfl) (List.length_replicate 510 0) (by decide) (by decide) (by decide)
     (by decide) (by decide)).1⟩

/-- C18: for every stub of length S ≥ 6, every address and every accepted
command line, every byte of the composed boot record at an offset i < S - 6
that is not part of a marker occurrence in the stub (neither the pair at
i, i + 1 nor the pair at i - 1, i is 0xCA, 0xFE) equals the byte of the stub
at i. -/
theorem stub_code_untouched (mbr0 stub cmdline : List Nat) (C A clen i : Nat)
    (hC : C = 446 ∨ C = 510) (hm : mbr0.length = 510) (hS : 6 ≤ stub.length)
    (hSC : stub.length ≤ C) (hc : cmdlen cmdline stub.length C = .ok clen)
    (hi : i < stub.length - 6)
    (h1 : ¬ (rd stub i = 0xca ∧ rd stub (i + 1) = 0xfe))
    (h2 : ¬ (0 < i ∧ rd stub (i - 1) = 0xca ∧ rd stub i = 0xfe)) :
    rd (compose mbr0 C stub A cmdline clen) i = rd stub i := by
  obtain ⟨hclen, hmax⟩ := cmdlen_ok_bounds hSC (by omega) hc
  have hhi : clen / 256 % 256 ≠ 0xca := by omega
  have hpre : ∀ j, j < stub.length - 5 →
      rd (memcpy (lbacopy (mlbcopy (memset mbr0 0 C) stub stub.length) stub.length A)
        (stub.length - 1) cmdline clen) j = rd stub j := by
    intro j hj
    rw [rd_beforeLoop mbr0 stub cmdline C A clen j (by omega) hSC (by omega) (by omega),
      if_neg (by omega), if_neg (by omega), if_pos (by omega)]
  rw [compose_eq_loop, rd_cmdcopyLoop _ _ hhi _ (by rw [length_beforeLoop]; omega),
    hpre i (by omega), hpre (i + 1) (by omega), hpre (i - 1) (by omega),
    if_neg (fun h => h1 h.2), if_neg (fun h => h2 ⟨h.1, h.2.2⟩)]

theorem stub_code_untouched_witness :
    cmdlen (ascii "root=/dev/sda1") threeMarkerStub.length 446 = .ok 15 ∧
    rd (compose (List.replicate 510 0) 446 threeMarkerStub 2048 (ascii "root=/dev/sda1") 15) 2
      = rd threeMarkerStub 2 :=
  ⟨by decide,
   stub_code_untouched (List.replicate 510 0) threeMarkerStub (ascii "root=/dev/sda1") 446 2048
     15 2 (Or.inl rfl) (List.length_replicate 510 0) (by decide) (by decide) (by decide)
     (by decide) (by decide) (by decide)⟩

theorem ext_rd {l1 l2 : List Nat} (hl : l1.length = l2.length)
    (h : ∀ j, j < l1.length → rd l1 j = rd l2 j) : l1 = l2 := by
  apply List.ext_getElem hl
  intro j h1 h2
  have hj := h j h1
  unfold rd at hj
  rw [List.getD_eq_getElem?_getD, List.getD_eq_getElem?_getD, List.getElem?_eq_getElem h1,
    List.getElem?_eq_getElem h2] at hj
  exact hj

theorem replaceAt_append (clen : Nat) (m qs : List Nat) (p : Nat) :
    replaceAt clen m (qs ++ [p]) = memcpy (replaceAt clen m qs) p (le16 clen) 2 := by
  unfold replaceAt
  rw [List.foldl_append]
  rfl

theorem length_replaceAt (clen : Nat) (m ps : List Nat) :
    (replaceAt clen m ps).length = m.length := by
  induction ps using List.reverseRecOn with
  | nil => rfl
  | append_singleton qs p ih => rw [replaceAt_append, length_memcpy, ih]

theorem rd_replaceAt (clen : Nat) (m ps : List Nat) (hb : ∀ i ∈ ps, i + 1 < m.length)
    (hno : ∀ i ∈ ps, i + 1 ∉ ps) (j : Nat) :
    rd (replaceAt clen m ps) j =
      if j ∈ ps then clen % 256
      else if 0 < j ∧ j - 1 ∈ ps then clen / 256 % 256
      else rd m j := by
  induction ps using List.reverseRecOn with
  | nil => simp [replaceAt]
  | append_singleton qs p ih =>
    have hbq : ∀ i ∈ qs, i + 1 < m.length := fun i hi => hb i (List.mem_append_left _ hi)
    have hnoq : ∀ i ∈ qs, i + 1 ∉ qs :=
      fun i hi h => hno i (List.mem_append_left _ hi) (List.mem_append_left _ h)
    have hp : p ∈ qs ++ [p] := List.mem_append_right _ (List.mem_singleton_self p)
    have hpb := hb p hp
    have hpno := hno p hp
    rw [replaceAt_append, rd_memcpy, length_replaceAt, ih hbq hnoq]
    by_cases h1 : j = p
    · subst h1
      rw [if_pos ⟨by omega, by omega, by omega⟩, if_pos hp, Nat.sub_self]
      rfl
    · by_cases h2 : j = p + 1
      · subst h2
        rw [if_pos ⟨by omega, by omega, by omega⟩, if_neg hpno,
          if_pos ⟨by omega, by rw [Nat.add_sub_cancel]; exact hp⟩,
          show p + 1 - p = 1 by omega]
        rfl
      · rw [if_neg (by omega)]
        have e1 : j ∈ qs ++ [p] ↔ j ∈ qs := by
          rw [List.mem_append, List.mem_singleton]
          exact ⟨fun h => h.resolve_right h1, Or.inl⟩
        have e2 : (0 < j ∧ j - 1 ∈ qs ++ [p]) ↔ (0 < j ∧ j - 1 ∈ qs) := by
          rw [List.mem_append, List.mem_singleton]
          constructor
          · rintro ⟨h0, h | h⟩
            · exact ⟨h0, h⟩
            · exact absurd (by omega : j = p + 1) h2
          · rintro ⟨h0, h⟩
            exact ⟨h0, Or.inl h⟩
        rw [if_congr e1 rfl (if_congr e2 rfl rfl)]

theorem mem_markerPositions (m : List Nat) (n i : Nat) :
    i ∈ markerPositions m n ↔ i < n ∧ rd m i = 0xca ∧ rd m (i + 1) = 0xfe := by
  unfold markerPositions
  simp only [List.mem_filter, List.mem_range, decide_eq_true_eq]

theorem rd_replaceAllMarkers (clen : Nat) (m : List Nat) (n : Nat) (hn : n < m.length) (j : Nat) :
    rd (replaceAllMarkers clen m n) j =
      if j < n ∧ rd m j = 0xca ∧ rd m (j + 1) = 0xfe then clen % 256
      else if 0 < j ∧ j ≤ n ∧ rd m (j - 1) = 0xca ∧ rd m j = 0xfe then clen / 256 % 256
      else rd m j := by
  unfold replaceAllMarkers
  rw [rd_replaceAt]
  · have e2 : (0 < j ∧ j - 1 ∈ markerPositions m n) ↔
        (0 < j ∧ j ≤ n ∧ rd m (j - 1) = 0xca ∧ rd m j = 0xfe) := by
      rw [mem_markerPositions]
      constructor
      · rintro ⟨h0, h1, h2, h3⟩
        rw [show j - 1 + 1 = j by omega] at h3
        exact ⟨h0, by omega, h2, h3⟩
      · rintro ⟨h0, h1, h2, h3⟩
        refine ⟨h0, by omega, h2, ?_⟩
        rw [show j - 1 + 1 = j by omega]
        exact h3
    rw [if_congr (mem_markerPositions m n j) rfl (if_congr e2 rfl rfl)]
  · intro i hi
    rw [mem_markerPositions] at hi
    omega
  · intro i hi h
    rw [mem_markerPositions] at hi h
    have h3 := hi.2.2
    rw [h.2.1] at h3
    exact absurd h3 (by decide)

/-- C16: for every buffer and every clen whose high byte is not 0xCA (as is
every clen that `cmdlen` returns for a capacity of at most 510), the
left-to-right scan of `cmdcopy`, which patches while it scans, gives the same
buffer as replacing at once every marker that the buffer held at a position
i < n before the scan; the test of the scan at index i succeeds exactly when
the buffer held the marker at i before the scan, so no patch creates a match
that is patched later and none destroys a match that was there. -/
theorem scan_equals_simultaneous_replacement (clen : Nat) (m : List Nat) (n : Nat)
    (hhi : clen / 256 % 256 ≠ 0xca) (hn : n < m.length) :
    cmdcopyLoop clen m n = replaceAllMarkers clen m n ∧
    (∀ i, i < n →
      ((rd (cmdcopyLoop clen m i) i = 0xca ∧ rd (cmdcopyLoop clen m i) (i + 1) = 0xfe) ↔
        (rd m i = 0xca ∧ rd m (i + 1) = 0xfe))) ∧
    (∀ (mbr cmd : List Nat) (mlblen : Nat), mlblen - 1 < mbr.length →
      cmdcopy mbr mlblen cmd clen =
        replaceAllMarkers clen (memcpy mbr (mlblen - 1) cmd clen) (mlblen - 1)) ∧
    (∀ (cmdline : List Nat) (S C c : Nat), S ≤ C → C ≤ 510 → cmdlen cmdline S C = .ok c →
      c / 256 % 256 ≠ 0xca) := by
  have heq : ∀ (b : List Nat) (k : Nat), k < b.length →
      cmdcopyLoop clen b k = replaceAllMarkers clen b k := by
    intro b k hk
    apply ext_rd
    · unfold replaceAllMarkers
      rw [length_cmdcopyLoop, length_replaceAt]
    · intro j _
      rw [rd_cmdcopyLoop clen b hhi k hk, rd_replaceAllMarkers clen b k hk]
  refine ⟨heq m n hn, ?_, ?_, ?_⟩
  · intro i hi
    have hA := rd_cmdcopyLoop clen m hhi i (by omega) i
    have hB := rd_cmdcopyLoop clen m hhi i (by omega) (i + 1)
    rw [if_neg (by omega)] at hA
    rw [if_neg (by omega), if_neg (by omega)] at hB
    rw [hB]
    by_cases hp : 0 < i ∧ i ≤ i ∧ rd m (i - 1) = 0xca ∧ rd m i = 0xfe
    · rw [if_pos hp] at hA
      rw [hA]
      have h1 : rd m i ≠ 0xca := by rw [hp.2.2.2]; decide
      exact ⟨fun h => absurd h.1 hhi, fun h => absurd h.1 h1⟩
    · rw [if_neg hp] at hA
      rw [hA]
  · intro mbr cmd mlblen hlen
    unfold cmdcopy
    exact heq _ _ (by rw [length_memcpy]; exact hlen)
  · intro cmdline S C c hSC hC hc
    obtain ⟨_, hmax⟩ := cmdlen_ok_bounds hSC (by omega) hc
    omega

theorem scan_equals_simultaneous_replacement_witness :
    15 / 256 % 256 ≠ 0xca ∧ 7 < sampleBuffer.length ∧
    cmdcopyLoop 15 sampleBuffer 7 = replaceAllMarkers 15 sampleBuffer 7 ∧
    cmdcopyLoop 15 sampleBuffer 7 = [15, 0, 0x90, 15, 0, 15, 0, 0x90, 0, 8, 0, 0, 0x72, 0x6f, 0, 0] :=
  ⟨by decide, by decide,
   (scan_equals_simultaneous_replacement 15 sampleBuffer 7 (by decide) (by decide)).1,
   by decide⟩

end Mlbinstall
